import Mathlib

/-!
# Benchmark-Flops-Max: a shallow embedding of `src/main.cpp`

The program runs a timed CPU loop (`run_cpu`) and a timed OpenCL loop
(`run_gpu`) and prints a throughput figure for each.

Modelling decisions
* `float` arithmetic is a parameter: a record `FArith α` of the operations the
  source uses.  Two instances are given: exact rational arithmetic (`exactQ`)
  and IEEE-754 binary32 with round-to-nearest-even (`binary32`, over the type
  `Fl` of finite values, infinities and NaN; the sign of zero is not tracked).
* `size_t` is a 64-bit unsigned integer: a `Nat` reduced `% 2 ^ 64` after each
  addition.
* `std::chrono::high_resolution_clock::now()` is an input: the world supplies
  the successive readings as a sequence `now : ℕ → ℚ` of seconds.
* The `double` expression `(flops / t) / 1e9` is computed in exact rational
  arithmetic, with `none` for the non-finite result of a division by zero.
* The order in which a parallel construct runs its iterations (OpenMP
  `parallel for`, OpenCL work-items) is an input: a list of indices.
* The loops `for(;;)` may not terminate; they take a fuel argument and return
  `none` when it runs out.
-/

namespace FlopsMax

/-! ## Floating-point arithmetic -/

/-- The floating-point operations used by the source, over a carrier `α`. -/
structure FArith (α : Type) where
  /-- the value `0.0f` (value-initialised vector elements) -/
  zero : α
  /-- the literal `1.0f` -/
  one : α
  /-- the operator `*` on `float` -/
  mul : α → α → α
  /-- the operator `+` on `float` -/
  add : α → α → α
  /-- the OpenCL builtin `fma(a,b,c)`: `a*b+c` with one rounding -/
  fma : α → α → α → α

/-- Exact rational arithmetic. -/
def exactQ : FArith ℚ where
  zero := 0
  one := 1
  mul := fun x y => x * y
  add := fun x y => x + y
  fma := fun x y z => x * y + z

/-- A floating-point datum: a finite value, a signed infinity, or NaN. -/
inductive Fl where
  | fin (q : ℚ)
  | inf (neg : Bool)
  | nan
deriving DecidableEq

/-- Floor of the binary logarithm of `|q|` for `q ≠ 0`. -/
def ilog2 (q : ℚ) : ℤ :=
  let k : ℤ := (Nat.log2 q.num.natAbs : ℤ) - (Nat.log2 q.den : ℤ)
  if (2 : ℚ) ^ k ≤ |q| then k else k - 1

/-- Nearest integer, ties to even. -/
def roundHalfEven (q : ℚ) : ℤ :=
  let f := ⌊q⌋
  let r := q - f
  if r < 1 / 2 then f else if 1 / 2 < r then f + 1 else if f % 2 = 0 then f else f + 1

/-- Rounding of a rational to the binary format with `p` significand bits and
exponent range `emin .. emax`, round-to-nearest-even, with gradual underflow
and overflow to infinity. -/
def roundTo (p : ℕ) (emin emax : ℤ) (q : ℚ) : Fl :=
  if q = 0 then Fl.fin 0 else
  let e := max (ilog2 q) emin
  let ulp : ℚ := 2 ^ (e - ((p : ℤ) - 1))
  let r : ℚ := (roundHalfEven (q / ulp) : ℚ) * ulp
  if 2 ^ (emax + 1) ≤ |r| then Fl.inf (decide (q < 0)) else Fl.fin r

/-- Rounding to IEEE-754 binary32. -/
def round32 (q : ℚ) : Fl := roundTo 24 (-126) 127 q

/-- Rounding of an extended value: only finite values are changed. -/
def Fl.round : Fl → Fl
  | Fl.fin q => round32 q
  | x => x

/-- The exact product in the extended reals (`inf * 0` is NaN). -/
def Fl.mulExact : Fl → Fl → Fl
  | Fl.nan, _ => Fl.nan
  | _, Fl.nan => Fl.nan
  | Fl.inf s, Fl.inf s' => Fl.inf (xor s s')
  | Fl.inf s, Fl.fin q => if q = 0 then Fl.nan else Fl.inf (xor s (decide (q < 0)))
  | Fl.fin q, Fl.inf s => if q = 0 then Fl.nan else Fl.inf (xor s (decide (q < 0)))
  | Fl.fin p, Fl.fin q => Fl.fin (p * q)

/-- The exact sum in the extended reals (`inf - inf` is NaN). -/
def Fl.addExact : Fl → Fl → Fl
  | Fl.nan, _ => Fl.nan
  | _, Fl.nan => Fl.nan
  | Fl.inf s, Fl.inf s' => if s = s' then Fl.inf s else Fl.nan
  | Fl.inf s, Fl.fin _ => Fl.inf s
  | Fl.fin _, Fl.inf s => Fl.inf s
  | Fl.fin p, Fl.fin q => Fl.fin (p + q)

/-- IEEE-754 binary32 arithmetic: each operation is the exact operation
followed by one rounding; `fma` rounds once. -/
def binary32 : FArith Fl where
  zero := Fl.fin 0
  one := Fl.fin 1
  mul := fun x y => (Fl.mulExact x y).round
  add := fun x y => (Fl.addExact x y).round
  fma := fun x y z => (Fl.addExact (Fl.mulExact x y) z).round

/-! ## Buffers and the two per-element kernels -/

/-- The three buffers of a runner. -/
structure Bufs (α : Type) where
  a : List α
  b : List α
  c : List α

/-- The element count `N = 1 << 20` of both runners. -/
def N : ℕ := 1 <<< 20

/-- Width of `size_t`. -/
def SIZE_BITS : ℕ := 64

/-- Lines 55-64 of `run_cpu`: the value computed for one element. -/
def run_cpu_elem {α : Type} (A : FArith α) (x y : α) : α :=
  let x := A.add (A.mul x y) y
  let x := A.add (A.mul x y) y
  let x := A.add (A.mul x y) y
  let x := A.add (A.mul x y) y
  let x := A.add (A.mul x y) y
  let x := A.add (A.mul x y) y
  let x := A.add (A.mul x y) y
  let x := A.add (A.mul x y) y
  x

/-- The body of the parallel loop of `run_cpu` at index `i`:
`x = a[i]; y = b[i]; ...; c[i] = x`. -/
def run_cpu_body {α : Type} (A : FArith α) (i : ℕ) (s : Bufs α) : Bufs α :=
  let x := s.a.getD i A.zero
  let y := s.b.getD i A.zero
  { s with c := s.c.set i (run_cpu_elem A x y) }

/-- One pass of the `#pragma omp parallel for` loop of `run_cpu`: the body is
run once for each index of `order`, the order in which the iterations happen
to be executed. -/
def run_cpu_pass {α : Type} (A : FArith α) (order : List ℕ) (s : Bufs α) : Bufs α :=
  order.foldl (fun s i => run_cpu_body A i s) s

/-- The buffers after `k` successive passes of the parallel loop of `run_cpu`,
the first of them being pass number `p` of the run. -/
def run_cpu_passes {α : Type} (A : FArith α) (sched : ℕ → List ℕ) (p : ℕ) :
    ℕ → Bufs α → Bufs α
  | 0, s => s
  | k + 1, s => run_cpu_passes A sched (p + 1) k (run_cpu_pass A (sched p) s)

/-- Lines 26-39 of kernel `kf`: the value computed for one element. -/
def kf_elem {α : Type} (A : FArith α) (x y : α) : α :=
  let x := A.fma x y y
  let x := A.fma x y y
  let x := A.fma x y y
  let x := A.fma x y y
  let x := A.fma x y y
  let x := A.fma x y y
  let x := A.fma x y y
  let x := A.fma x y y
  let x := A.fma x y y
  let x := A.fma x y y
  let x := A.fma x y y
  let x := A.fma x y y
  let x := A.fma x y y
  let x := A.fma x y y
  let x := A.fma x y y
  let x := A.fma x y y
  x

/-- The loop `for(int i = gid; i < n; i += stride)` of kernel `kf`, from the
current value of `i`.  The result is the buffers after the loop together with
the indices visited, in order.  `stride` is `get_global_size(0)`, which is
positive for every launch. -/
def kf_loop {α : Type} (A : FArith α) (n stride : ℕ) (hs : 0 < stride) (i : ℕ)
    (s : Bufs α) : Bufs α × List ℕ :=
  if _h : i < n then
    let x := s.a.getD i A.zero
    let y := s.b.getD i A.zero
    let r := kf_loop A n stride hs (i + stride) { s with c := s.c.set i (kf_elem A x y) }
    (r.1, i :: r.2)
  else (s, [])
termination_by n - i
decreasing_by omega

/-- Kernel `kf` as run by the work-item with global id `gid` in a launch of
`gsize` work-items. -/
def kf {α : Type} (A : FArith α) (n gsize : ℕ) (hs : 0 < gsize) (gid : ℕ)
    (s : Bufs α) : Bufs α × List ℕ :=
  kf_loop A n gsize hs gid s

/-- An `clEnqueueNDRangeKernel` of `kf` followed by `clFinish`: every work-item
of `order` runs the kernel. -/
def dispatch {α : Type} (A : FArith α) (n gsize : ℕ) (hs : 0 < gsize) (order : List ℕ)
    (s : Bufs α) : Bufs α :=
  order.foldl (fun s gid => (kf A n gsize hs gid s).1) s

/-- One element-wise update `c[i] = f a[i] b[i]`, the common shape of the two
loop bodies. -/
def setBody {α : Type} (f : α → α → α) (z : α) (i : ℕ) (s : Bufs α) : Bufs α :=
  { s with c := s.c.set i (f (s.a.getD i z) (s.b.getD i z)) }

/-! ## Output, the clock and the throughput figure -/

/-- An item written to a stream with `<<`: a string literal or a `double`;
a `double` that is not finite (infinity or NaN) is `num none`. -/
inductive Out where
  | text (s : String)
  | num (v : Option ℚ)
deriving DecidableEq

/-- The expression `(flops/t)/1e9`.  A division by `t = 0` does not trap in
`double` arithmetic: it yields an infinity or NaN, here `none`. -/
def gflops (flops : ℕ) (t : ℚ) : Option ℚ :=
  if t = 0 then none else some (((flops : ℚ) / t) / 1000000000)

/-! ## The CPU runner -/

/-- What `run_cpu` receives from outside: the clock and the thread schedule. -/
structure CpuWorld where
  /-- reading returned by the `i`-th call of `now()`, counted from 0, in seconds -/
  now : ℕ → ℚ
  /-- order in which the iterations of the parallel loop run in pass `k` -/
  sched : ℕ → List ℕ

/-- The variables of `run_cpu` that change in its loop, with the number of
passes completed so far. -/
structure CpuState (α : Type) where
  bufs : Bufs α
  flops : ℕ
  passes : ℕ

/-- What `run_cpu` leaves behind when it returns. -/
structure CpuResult (α : Type) where
  bufs : Bufs α
  flops : ℕ
  passes : ℕ
  /-- the last value of `t` -/
  t : ℚ
  /-- what was written to standard output -/
  out : List Out

/-- The loop `for(;;)` of `run_cpu` (lines 52-76); `st` is the start reading. -/
def run_cpu_loop {α : Type} (A : FArith α) (w : CpuWorld) (sec st : ℚ) :
    ℕ → CpuState α → Option (CpuResult α)
  | 0, _ => none
  | fuel + 1, s =>
    let bufs := run_cpu_pass A (w.sched s.passes) s.bufs
    let flops := (s.flops + N * 8) % 2 ^ SIZE_BITS
    let t := w.now (s.passes + 1) - st
    if sec ≤ t then
      some { bufs := bufs, flops := flops, passes := s.passes + 1, t := t,
             out := [Out.text "CPU MAX\n", Out.num (gflops flops t), Out.text " GFLOPS\n"] }
    else
      run_cpu_loop A w sec st fuel { bufs := bufs, flops := flops, passes := s.passes + 1 }

/-- Line 47 of `run_cpu`: `a(N,1.0f), b(N,1.0f), c(N)`. -/
def run_cpu_init {α : Type} (A : FArith α) : Bufs α :=
  { a := List.replicate N A.one, b := List.replicate N A.one, c := List.replicate N A.zero }

/-- The function `run_cpu(sec)` (lines 45-77). -/
def run_cpu {α : Type} (A : FArith α) (w : CpuWorld) (sec : ℚ) (fuel : ℕ) :
    Option (CpuResult α) :=
  run_cpu_loop A w sec (w.now 0) fuel { bufs := run_cpu_init A, flops := 0, passes := 0 }

/-! ## The GPU runner -/

/-- The status code `CL_SUCCESS` of the OpenCL headers. -/
def CL_SUCCESS : ℤ := 0

/-- The device-side objects `run_gpu` holds, named after its variables. -/
inductive Res where
  | ctx | q | a | b | c | pr | k
deriving DecidableEq

/-- The OpenCL calls `run_gpu` makes. -/
inductive ClCall where
  | clGetPlatformIDs
  | clGetDeviceIDs
  | clCreateContext
  | clCreateCommandQueue
  | clCreateBuffer (r : Res)
  | clEnqueueWriteBuffer (r : Res)
  | clCreateProgramWithSource
  | clBuildProgram
  | clCreateKernel
  | clSetKernelArg (idx : ℕ)
  | clEnqueueNDRangeKernel (gsize lsize : ℕ)
  | clFinish
  | clReleaseKernel
  | clReleaseProgram
  | clReleaseMemObject (r : Res)
  | clReleaseCommandQueue
  | clReleaseContext
deriving DecidableEq

/-- The observable steps of `run_gpu`, in the order they happen. -/
inductive Event where
  | cl (c : ClCall)
  | clock
  | out (o : Out)
  | err (s : String)
deriving DecidableEq

/-- What `run_gpu` receives from outside.  Calls after device discovery are
not checked by the source and are taken to succeed. -/
structure GpuWorld (α : Type) where
  /-- return value of `clGetPlatformIDs` -/
  platStatus : ℤ
  /-- the count `pc` stored by `clGetPlatformIDs` -/
  platCount : ℕ
  /-- return value of `clGetDeviceIDs` -/
  devStatus : ℤ
  /-- reading returned by the `i`-th call of `now()` in `run_gpu`, from 0 -/
  now : ℕ → ℚ
  /-- order in which the work-items of dispatch `k` run -/
  sched : ℕ → List ℕ
  /-- contents of the three device buffers right after `clCreateBuffer` -/
  mem0 : Bufs α

/-- How `run_gpu` ended. -/
inductive GpuOutcome (α : Type) where
  | noPlatform
  | noGpu
  | ran (bufs : Bufs α) (flops dispatches : ℕ) (t : ℚ)

/-- What `run_gpu` leaves behind when it returns. -/
structure GpuResult (α : Type) where
  trace : List Event
  outcome : GpuOutcome α

/-- The variables of `run_gpu` that change in its loop, with the number of
dispatches completed and the events so far. -/
structure GpuState (α : Type) where
  bufs : Bufs α
  flops : ℕ
  dispatches : ℕ
  trace : List Event

/-- The work-group size `local`. -/
def local_size : ℕ := 256

/-- The launch size `global = local * 1024`. -/
def global_size : ℕ := local_size * 1024

/-- Lines 137-143 of `run_gpu`. -/
def run_gpu_release : List Event :=
  [Event.cl ClCall.clReleaseKernel,
   Event.cl ClCall.clReleaseProgram,
   Event.cl (ClCall.clReleaseMemObject Res.a),
   Event.cl (ClCall.clReleaseMemObject Res.b),
   Event.cl (ClCall.clReleaseMemObject Res.c),
   Event.cl ClCall.clReleaseCommandQueue,
   Event.cl ClCall.clReleaseContext]

/-- The loop `for(;;)` of `run_gpu` (lines 121-135) and the releases that follow
it; `st` is the start reading. -/
def run_gpu_loop {α : Type} (A : FArith α) (w : GpuWorld α) (sec st : ℚ) :
    ℕ → GpuState α → Option (GpuResult α)
  | 0, _ => none
  | fuel + 1, s =>
    let bufs := dispatch A N global_size (by decide) (w.sched s.dispatches) s.bufs
    let flops := (s.flops + N * 16) % 2 ^ SIZE_BITS
    let t := w.now (s.dispatches + 1) - st
    let trace := s.trace ++
      [Event.cl (ClCall.clEnqueueNDRangeKernel global_size local_size),
       Event.cl ClCall.clFinish, Event.clock]
    if sec ≤ t then
      some { trace := trace ++
               [Event.out (Out.text "GPU MAX\n"), Event.out (Out.num (gflops flops t)),
                Event.out (Out.text " GFLOPS\n")] ++ run_gpu_release,
             outcome := GpuOutcome.ran bufs flops (s.dispatches + 1) t }
    else
      run_gpu_loop A w sec st fuel
        { bufs := bufs, flops := flops, dispatches := s.dispatches + 1, trace := trace }

/-- Lines 91-113 of `run_gpu`: the calls between device discovery and the
start reading. -/
def run_gpu_setup : List Event :=
  [Event.cl ClCall.clCreateContext,
   Event.cl ClCall.clCreateCommandQueue,
   Event.cl (ClCall.clCreateBuffer Res.a),
   Event.cl (ClCall.clCreateBuffer Res.b),
   Event.cl (ClCall.clCreateBuffer Res.c),
   Event.cl (ClCall.clEnqueueWriteBuffer Res.a),
   Event.cl (ClCall.clEnqueueWriteBuffer Res.b),
   Event.cl ClCall.clCreateProgramWithSource,
   Event.cl ClCall.clBuildProgram,
   Event.cl ClCall.clCreateKernel,
   Event.cl (ClCall.clSetKernelArg 0),
   Event.cl (ClCall.clSetKernelArg 1),
   Event.cl (ClCall.clSetKernelArg 2),
   Event.cl (ClCall.clSetKernelArg 3)]

/-- The device buffers after lines 98-104 of `run_gpu`: `a` and `b` hold the
`N` ones uploaded from `h`, `c` holds what the allocation left there. -/
def run_gpu_init {α : Type} (A : FArith α) (w : GpuWorld α) : Bufs α :=
  { a := List.replicate N A.one, b := List.replicate N A.one, c := w.mem0.c }

/-- The function `run_gpu(sec)` (lines 80-144). -/
def run_gpu {α : Type} (A : FArith α) (w : GpuWorld α) (sec : ℚ) (fuel : ℕ) :
    Option (GpuResult α) :=
  if w.platStatus ≠ CL_SUCCESS ∨ w.platCount = 0 then
    some { trace := [Event.cl ClCall.clGetPlatformIDs, Event.err "No OpenCL platform\n"],
           outcome := GpuOutcome.noPlatform }
  else if w.devStatus ≠ CL_SUCCESS then
    some { trace := [Event.cl ClCall.clGetPlatformIDs, Event.cl ClCall.clGetDeviceIDs,
                     Event.err "GPU not found\n"],
           outcome := GpuOutcome.noGpu }
  else
    run_gpu_loop A w sec (w.now 0) fuel
      { bufs := run_gpu_init A w, flops := 0, dispatches := 0,
        trace := [Event.cl ClCall.clGetPlatformIDs, Event.cl ClCall.clGetDeviceIDs] ++
          run_gpu_setup ++ [Event.clock] }

/-! ## The process -/

/-- What the process leaves behind. -/
structure ProcResult where
  exitCode : ℤ
  stdout : List Out
  stderr : List String

/-- The items an event list writes to standard output. -/
def stdoutOf (tr : List Event) : List Out :=
  tr.filterMap (fun e => match e with
    | Event.out o => some o
    | _ => none)

/-- The lines an event list writes to the error stream. -/
def stderrOf (tr : List Event) : List String :=
  tr.filterMap (fun e => match e with
    | Event.err s => some s
    | _ => none)

/-- The OpenCL calls of an event list. -/
def callsOf (tr : List Event) : List ClCall :=
  tr.filterMap (fun e => match e with
    | Event.cl c => some c
    | _ => none)

/-- The function `main` (lines 147-153).  `arg` is `atof(argv[1])` when an
argument is given. -/
def main {α : Type} (A : FArith α) (cw : CpuWorld) (gw : GpuWorld α) (arg : Option ℚ)
    (fuel : ℕ) : Option ProcResult :=
  let sec : ℚ := match arg with
    | some v => v
    | none => 1
  match run_cpu A cw sec fuel with
  | none => none
  | some rc =>
    match run_gpu A gw sec fuel with
    | none => none
    | some rg =>
      some { exitCode := 0, stdout := rc.out ++ stdoutOf rg.trace, stderr := stderrOf rg.trace }

/-- The object a call creates. -/
def acquires : ClCall → Option Res
  | ClCall.clCreateContext => some Res.ctx
  | ClCall.clCreateCommandQueue => some Res.q
  | ClCall.clCreateBuffer r => some r
  | ClCall.clCreateProgramWithSource => some Res.pr
  | ClCall.clCreateKernel => some Res.k
  | _ => none

/-- The object a call releases. -/
def releases : ClCall → Option Res
  | ClCall.clReleaseKernel => some Res.k
  | ClCall.clReleaseProgram => some Res.pr
  | ClCall.clReleaseMemObject r => some r
  | ClCall.clReleaseCommandQueue => some Res.q
  | ClCall.clReleaseContext => some Res.ctx
  | _ => none

/-! ## Concrete worlds -/

/-- A clock that ticks one second per reading, with the sequential schedule. -/
def unitClock : CpuWorld where
  now := fun i => (i : ℚ)
  sched := fun _ => List.range N

/-- A clock that stands still, with the sequential schedule. -/
def stillClock : CpuWorld where
  now := fun _ => 0
  sched := fun _ => List.range N

/-! ## Derived notions used to state the claims -/

/-- A host on which device discovery succeeds: the conditions of lines 82 and
87 are both false. -/
def GpuWorld.found {α : Type} (w : GpuWorld α) : Prop :=
  w.platStatus = CL_SUCCESS ∧ w.platCount ≠ 0 ∧ w.devStatus = CL_SUCCESS

instance {α : Type} (w : GpuWorld α) : Decidable w.found := by
  unfold GpuWorld.found
  infer_instance

/-- The buffers after `k` successive dispatches of `run_gpu`, the first of
them being dispatch number `p` of the run. -/
def run_gpu_dispatches {α : Type} (A : FArith α) (sched : ℕ → List ℕ) (p : ℕ) :
    ℕ → Bufs α → Bufs α
  | 0, s => s
  | k + 1, s =>
    run_gpu_dispatches A sched (p + 1) k (dispatch A N global_size (by decide) (sched p) s)

/-- The events of `k` iterations of the loop of `run_gpu`. -/
def loopEvents : ℕ → List Event
  | 0 => []
  | k + 1 =>
    [Event.cl (ClCall.clEnqueueNDRangeKernel global_size local_size),
     Event.cl ClCall.clFinish, Event.clock] ++ loopEvents k

/-- The objects created along an event list, in order. -/
def acquiredOf (tr : List Event) : List Res := (callsOf tr).filterMap acquires

/-- The objects released along an event list, in order. -/
def releasedOf (tr : List Event) : List Res := (callsOf tr).filterMap releases

/-- The kernel launches of an event list. -/
def launchesOf (tr : List Event) : List ClCall :=
  (callsOf tr).filter (fun c => match c with
    | ClCall.clEnqueueNDRangeKernel _ _ => true
    | _ => false)

/-- A host with a GPU, a clock that ticks one second per reading, work-items
run in increasing order. -/
def gpuUnit : GpuWorld ℚ where
  platStatus := 0
  platCount := 1
  devStatus := 0
  now := fun i => (i : ℚ)
  sched := fun _ => List.range global_size
  mem0 := { a := [], b := [], c := List.replicate N 0 }

/-- A host with a GPU whose clock stands still. -/
def gpuStill : GpuWorld ℚ where
  platStatus := 0
  platCount := 1
  devStatus := 0
  now := fun _ => 0
  sched := fun _ => List.range global_size
  mem0 := { a := [], b := [], c := List.replicate N 0 }

/-- A host with a GPU whose clock reads 0 for the first `2^40` readings and 1
from then on. -/
def gpuLate : GpuWorld ℚ where
  platStatus := 0
  platCount := 1
  devStatus := 0
  now := fun i => if i < 2 ^ 40 then 0 else 1
  sched := fun _ => List.range global_size
  mem0 := { a := [], b := [], c := List.replicate N 0 }

/-- A host without any OpenCL platform: `clGetPlatformIDs` succeeds and
reports zero platforms. -/
def gpuNoPlatform : GpuWorld ℚ where
  platStatus := 0
  platCount := 0
  devStatus := 0
  now := fun i => (i : ℚ)
  sched := fun _ => List.range global_size
  mem0 := { a := [], b := [], c := [] }

/-- The events of a run of `run_gpu` that found a GPU, made `k` dispatches and
wrote the value `v`. -/
def successTrace (k : ℕ) (v : Option ℚ) : List Event :=
  [Event.cl ClCall.clGetPlatformIDs, Event.cl ClCall.clGetDeviceIDs] ++
    run_gpu_setup ++ [Event.clock] ++ loopEvents k ++
    [Event.out (Out.text "GPU MAX\n"), Event.out (Out.num v),
     Event.out (Out.text " GFLOPS\n")] ++ run_gpu_release

/-- A host with a platform but no GPU device: `clGetDeviceIDs` returns
`CL_DEVICE_NOT_FOUND`, which is `-1`. -/
def gpuNoDevice : GpuWorld ℚ where
  platStatus := 0
  platCount := 1
  devStatus := -1
  now := fun i => (i : ℚ)
  sched := fun _ => List.range global_size
  mem0 := { a := [], b := [], c := [] }

/-- The indices the work-item `gid` visits in the launch made by `run_gpu`. -/
def launchIndices (gid : ℕ) : List ℕ :=
  [gid, gid + global_size, gid + 2 * global_size, gid + 3 * global_size]

/-! ## Lemmas on element-wise loops -/

theorem run_cpu_body_eq {α : Type} (A : FArith α) (i : ℕ) (s : Bufs α) :
    run_cpu_body A i s = setBody (run_cpu_elem A) A.zero i s := rfl

theorem foldl_setBody_a {α : Type} (f : α → α → α) (z : α) (l : List ℕ) (s : Bufs α) :
    (l.foldl (fun s i => setBody f z i s) s).a = s.a := by
  induction l generalizing s with
  | nil => rfl
  | cons i l ih => simp only [List.foldl_cons]; rw [ih]; rfl

theorem foldl_setBody_b {α : Type} (f : α → α → α) (z : α) (l : List ℕ) (s : Bufs α) :
    (l.foldl (fun s i => setBody f z i s) s).b = s.b := by
  induction l generalizing s with
  | nil => rfl
  | cons i l ih => simp only [List.foldl_cons]; rw [ih]; rfl

theorem foldl_setBody_length {α : Type} (f : α → α → α) (z : α) (l : List ℕ) (s : Bufs α) :
    (l.foldl (fun s i => setBody f z i s) s).c.length = s.c.length := by
  induction l generalizing s with
  | nil => rfl
  | cons i l ih => simp only [List.foldl_cons]; rw [ih]; simp [setBody]

theorem foldl_setBody_get {α : Type} (f : α → α → α) (z : α) (l : List ℕ) (s : Bufs α)
    (j : ℕ) :
    (l.foldl (fun s i => setBody f z i s) s).c[j]? =
      if j ∈ l ∧ j < s.c.length then some (f (s.a.getD j z) (s.b.getD j z)) else s.c[j]? := by
  induction l generalizing s with
  | nil => simp
  | cons i l ih =>
    simp only [List.foldl_cons]
    rw [ih]
    have ha : (setBody f z i s).a = s.a := rfl
    have hb : (setBody f z i s).b = s.b := rfl
    have hl : (setBody f z i s).c.length = s.c.length := by simp [setBody]
    have hc : (setBody f z i s).c = s.c.set i (f (s.a.getD i z) (s.b.getD i z)) := rfl
    rw [ha, hb, hl]
    by_cases hjl : j ∈ l
    · by_cases hlt : j < s.c.length
      · simp [hjl, hlt]
      · have h1 : s.c[j]? = none := List.getElem?_eq_none (by omega)
        have h2 : (setBody f z i s).c[j]? = none := List.getElem?_eq_none (by omega)
        simp [hlt, h1, h2]
    · by_cases hij : j = i
      · subst hij
        by_cases hlt : j < s.c.length
        · simp [hjl, hlt, hc]
        · have h1 : s.c[j]? = none := List.getElem?_eq_none (by omega)
          have h2 : (setBody f z j s).c[j]? = none := List.getElem?_eq_none (by omega)
          simp [hlt, h1, h2]
      · have hne : i ≠ j := fun h => hij h.symm
        simp [hjl, hij, hc, List.getElem?_set_ne hne]

/-- The output buffer of a complete element-wise pass. -/
theorem foldl_setBody_c {α : Type} (f : α → α → α) (z : α) (l : List ℕ) (s : Bufs α)
    (hcover : ∀ j, j < s.c.length → j ∈ l) :
    (l.foldl (fun s i => setBody f z i s) s).c =
      (List.range s.c.length).map (fun j => f (s.a.getD j z) (s.b.getD j z)) := by
  apply List.ext_getElem?
  intro j
  rw [foldl_setBody_get]
  by_cases hlt : j < s.c.length
  · simp [hlt, hcover j hlt, List.getElem?_range hlt]
  · have h1 : s.c[j]? = none := List.getElem?_eq_none (by omega)
    have h2 : (List.range s.c.length)[j]? = none :=
      List.getElem?_eq_none (by simp only [List.length_range]; omega)
    simp [hlt, h1, h2]

theorem perm_range_cover {l : List ℕ} {n : ℕ} (h : l.Perm (List.range n)) :
    ∀ j, j < n → j ∈ l := by
  intro j hj
  exact (h.mem_iff).2 (List.mem_range.2 hj)

/-! ## Lemmas on the passes of `run_cpu` -/

theorem run_cpu_pass_a {α : Type} (A : FArith α) (order : List ℕ) (s : Bufs α) :
    (run_cpu_pass A order s).a = s.a :=
  foldl_setBody_a (run_cpu_elem A) A.zero order s

theorem run_cpu_pass_b {α : Type} (A : FArith α) (order : List ℕ) (s : Bufs α) :
    (run_cpu_pass A order s).b = s.b :=
  foldl_setBody_b (run_cpu_elem A) A.zero order s

theorem run_cpu_pass_length {α : Type} (A : FArith α) (order : List ℕ) (s : Bufs α) :
    (run_cpu_pass A order s).c.length = s.c.length :=
  foldl_setBody_length (run_cpu_elem A) A.zero order s

theorem run_cpu_pass_c {α : Type} (A : FArith α) (order : List ℕ) (s : Bufs α)
    (horder : order.Perm (List.range s.c.length)) :
    (run_cpu_pass A order s).c =
      (List.range s.c.length).map
        (fun j => run_cpu_elem A (s.a.getD j A.zero) (s.b.getD j A.zero)) :=
  foldl_setBody_c (run_cpu_elem A) A.zero order s (perm_range_cover horder)

theorem run_cpu_passes_a {α : Type} (A : FArith α) (sched : ℕ → List ℕ) (k p : ℕ)
    (s : Bufs α) : (run_cpu_passes A sched p k s).a = s.a := by
  induction k generalizing p s with
  | zero => rfl
  | succ k ih => simp only [run_cpu_passes]; rw [ih, run_cpu_pass_a]

theorem run_cpu_passes_b {α : Type} (A : FArith α) (sched : ℕ → List ℕ) (k p : ℕ)
    (s : Bufs α) : (run_cpu_passes A sched p k s).b = s.b := by
  induction k generalizing p s with
  | zero => rfl
  | succ k ih => simp only [run_cpu_passes]; rw [ih, run_cpu_pass_b]

theorem run_cpu_passes_length {α : Type} (A : FArith α) (sched : ℕ → List ℕ) (k p : ℕ)
    (s : Bufs α) : (run_cpu_passes A sched p k s).c.length = s.c.length := by
  induction k generalizing p s with
  | zero => rfl
  | succ k ih => simp only [run_cpu_passes]; rw [ih, run_cpu_pass_length]

theorem run_cpu_passes_c {α : Type} (A : FArith α) (sched : ℕ → List ℕ) (k p : ℕ)
    (s : Bufs α) (hk : 1 ≤ k) (hsched : ∀ i, (sched i).Perm (List.range s.c.length)) :
    (run_cpu_passes A sched p k s).c =
      (List.range s.c.length).map
        (fun j => run_cpu_elem A (s.a.getD j A.zero) (s.b.getD j A.zero)) := by
  induction k generalizing p s with
  | zero => omega
  | succ k ih =>
    simp only [run_cpu_passes]
    rcases Nat.eq_zero_or_pos k with h0 | hpos
    · subst h0
      simp only [run_cpu_passes]
      exact run_cpu_pass_c A (sched p) s (hsched p)
    · have hlen := run_cpu_pass_length A (sched p) s
      rw [ih (p + 1) (run_cpu_pass A (sched p) s) hpos (by rw [hlen]; exact hsched),
        hlen, run_cpu_pass_a, run_cpu_pass_b]

/-! ## The buffers of `run_cpu` after a pass -/

theorem run_cpu_pass_init_get {α : Type} (A : FArith α) (order : List ℕ)
    (horder : order.Perm (List.range N)) (i : ℕ) (hi : i < N) :
    (run_cpu_pass A order (run_cpu_init A)).c[i]? = some (run_cpu_elem A A.one A.one) := by
  have hlen : (run_cpu_init A).c.length = N := by simp [run_cpu_init]
  rw [run_cpu_pass_c A order (run_cpu_init A) (by rw [hlen]; exact horder), hlen]
  simp [run_cpu_init, List.getElem?_range hi, List.getElem?_replicate, hi]

theorem run_cpu_elem_binary32_one :
    run_cpu_elem binary32 (Fl.fin 1) (Fl.fin 1) = Fl.fin 9 := by
  simp [run_cpu_elem, binary32, Fl.mulExact, Fl.addExact, Fl.round, round32, roundTo, ilog2,
    roundHalfEven]
  norm_num [Nat.log2]

theorem N_pos : 0 < N := by decide

/-! ## Claims on the buffers of `run_cpu` -/

/-- C1, as stated, fails: after one pass from the buffers of `run_cpu` (inputs
all `1.0f`) in binary32 arithmetic, it is not the case that `c` holds `2.0` at
every index below `N`. -/
theorem C1_counterexample :
    ¬ ∀ i, i < N →
      (run_cpu_pass binary32 (List.range N) (run_cpu_init binary32)).c[i]? =
        some (Fl.fin 2) := by
  intro h
  have h0 := h 0 N_pos
  rw [run_cpu_pass_init_get binary32 (List.range N) (List.Perm.refl _) 0 N_pos] at h0
  have h9 : run_cpu_elem binary32 binary32.one binary32.one = Fl.fin 9 :=
    run_cpu_elem_binary32_one
  rw [h9] at h0
  simp only [Option.some.injEq, Fl.fin.injEq] at h0
  norm_num at h0

/-- C1, amended: starting from the buffers of `run_cpu` (`a` and `b` hold `1.0f`
at every index), after one complete pass of the parallel loop, whatever the
order in which the iterations ran, `c` holds `9.0` at every index `i < N`,
`N = 2^20`, in IEEE binary32 arithmetic. -/
theorem C1_cpu_pass_holds_nine (order : List ℕ) (horder : order.Perm (List.range N)) :
    N = 2 ^ 20 ∧ ∀ i, i < N →
      (run_cpu_pass binary32 order (run_cpu_init binary32)).c[i]? = some (Fl.fin 9) := by
  refine ⟨by decide, ?_⟩
  intro i hi
  rw [run_cpu_pass_init_get binary32 order horder i hi]
  exact congrArg some run_cpu_elem_binary32_one

/-- C1 at the sequential order of the iterations. -/
theorem C1_cpu_pass_holds_nine_witness :
    (List.range N).Perm (List.range N) ∧ (N = 2 ^ 20 ∧ ∀ i, i < N →
      (run_cpu_pass binary32 (List.range N) (run_cpu_init binary32)).c[i]? =
        some (Fl.fin 9)) :=
  ⟨List.Perm.refl _, C1_cpu_pass_holds_nine (List.range N) (List.Perm.refl _)⟩

/-- C9: a pass of the `run_cpu` loop leaves `a` and `b` unchanged, its output
`c` does not depend on the previous contents of `c`, and the contents of `c`
after any number `k ≥ 1` of passes equal the contents after one pass (every
pass running each index of `[0, N)` once, in any order). -/
theorem C9_cpu_pass_frame {α : Type} (A : FArith α) (sched : ℕ → List ℕ) (s : Bufs α)
    (hc : s.c.length = N) (hsched : ∀ p, (sched p).Perm (List.range N)) :
    (∀ p, (run_cpu_pass A (sched p) s).a = s.a ∧ (run_cpu_pass A (sched p) s).b = s.b) ∧
    (∀ p c', c'.length = N →
      (run_cpu_pass A (sched p) { s with c := c' }).c = (run_cpu_pass A (sched p) s).c) ∧
    (∀ k p, 1 ≤ k →
      (run_cpu_passes A sched p k s).a = s.a ∧ (run_cpu_passes A sched p k s).b = s.b ∧
      (run_cpu_passes A sched p k s).c = (run_cpu_pass A (sched 0) s).c) := by
  have hs : ∀ p, (sched p).Perm (List.range s.c.length) := by rw [hc]; exact hsched
  refine ⟨fun p => ⟨run_cpu_pass_a A _ s, run_cpu_pass_b A _ s⟩, ?_, ?_⟩
  · intro p c' hc'
    rw [run_cpu_pass_c A (sched p) s (hs p),
      run_cpu_pass_c A (sched p) { s with c := c' } (by simpa [hc'] using hsched p)]
    simp [hc, hc']
  · intro k p hk
    refine ⟨run_cpu_passes_a A sched k p s, run_cpu_passes_b A sched k p s, ?_⟩
    rw [run_cpu_passes_c A sched k p s hk hs, run_cpu_pass_c A (sched 0) s (hs 0)]

/-- C9 at the buffers of `run_cpu`, exact arithmetic, sequential order. -/
theorem C9_cpu_pass_frame_witness :
    (run_cpu_init exactQ).c.length = N ∧
    (∀ p : ℕ, ((fun _ => List.range N) p).Perm (List.range N)) ∧
    (∀ _p : ℕ, (run_cpu_pass exactQ (List.range N) (run_cpu_init exactQ)).a =
        (run_cpu_init exactQ).a ∧
      (run_cpu_pass exactQ (List.range N) (run_cpu_init exactQ)).b =
        (run_cpu_init exactQ).b) ∧
    (∀ (_p : ℕ) (c' : List ℚ), c'.length = N →
      (run_cpu_pass exactQ (List.range N) { run_cpu_init exactQ with c := c' }).c =
        (run_cpu_pass exactQ (List.range N) (run_cpu_init exactQ)).c) ∧
    (∀ k p : ℕ, 1 ≤ k →
      (run_cpu_passes exactQ (fun _ => List.range N) p k (run_cpu_init exactQ)).a =
        (run_cpu_init exactQ).a ∧
      (run_cpu_passes exactQ (fun _ => List.range N) p k (run_cpu_init exactQ)).b =
        (run_cpu_init exactQ).b ∧
      (run_cpu_passes exactQ (fun _ => List.range N) p k (run_cpu_init exactQ)).c =
        (run_cpu_pass exactQ (List.range N) (run_cpu_init exactQ)).c) :=
  ⟨by simp [run_cpu_init], fun _ => List.Perm.refl _,
    C9_cpu_pass_frame exactQ (fun _ => List.range N) (run_cpu_init exactQ)
      (by simp [run_cpu_init]) (fun _ => List.Perm.refl _)⟩

/-! ## Lemmas on the loop of `run_cpu` -/

theorem counter_step (f c x m : ℕ) : ((f + c) % m + x) % m = (f + (c + x)) % m := by
  rw [Nat.add_mod, Nat.mod_mod, ← Nat.add_mod, Nat.add_assoc]

/-- The loop returns at the first pass whose reading reaches `sec`, when the
fuel allows that many passes. -/
theorem run_cpu_loop_spec {α : Type} (A : FArith α) (w : CpuWorld) (sec st : ℚ) :
    ∀ (k fuel : ℕ) (s : CpuState α), k < fuel →
      (∀ j, j < k → w.now (s.passes + j + 1) - st < sec) →
      sec ≤ w.now (s.passes + k + 1) - st →
      run_cpu_loop A w sec st fuel s = some
        { bufs := run_cpu_passes A w.sched s.passes (k + 1) s.bufs
          flops := (s.flops + (k + 1) * (N * 8)) % 2 ^ SIZE_BITS
          passes := s.passes + k + 1
          t := w.now (s.passes + k + 1) - st
          out := [Out.text "CPU MAX\n",
            Out.num (gflops ((s.flops + (k + 1) * (N * 8)) % 2 ^ SIZE_BITS)
              (w.now (s.passes + k + 1) - st)),
            Out.text " GFLOPS\n"] } := by
  intro k
  induction k with
  | zero =>
    intro fuel s hf _ hhit
    cases fuel with
    | zero => omega
    | succ f =>
      have hhit1 : sec ≤ w.now (s.passes + 1) - st := by simpa using hhit
      simp [run_cpu_loop, hhit1, run_cpu_passes]
  | succ k ih =>
    intro fuel s hf hbefore hhit
    cases fuel with
    | zero => omega
    | succ f =>
      have h0 : ¬ sec ≤ w.now (s.passes + 1) - st := by
        have := hbefore 0 (by omega)
        simpa using this
      have e : ∀ j, s.passes + 1 + j + 1 = s.passes + (j + 1) + 1 := fun j => by omega
      rw [run_cpu_loop]
      simp only [h0, if_false]
      rw [ih f _ (by omega)
        (by intro j hj; simp only [e]; exact hbefore (j + 1) (by omega))
        (by simp only [e]; exact hhit)]
      simp only [e, run_cpu_passes, counter_step]
      have e2 : N * 8 + (k + 1) * (N * 8) = (k + 1 + 1) * (N * 8) := by ring
      rw [e2]

/-- A run that returns has stopped at the first pass whose reading reaches
`sec`. -/
theorem run_cpu_loop_sound {α : Type} (A : FArith α) (w : CpuWorld) (sec st : ℚ) :
    ∀ (fuel : ℕ) (s : CpuState α) (r : CpuResult α),
      run_cpu_loop A w sec st fuel s = some r →
      ∃ k, k < fuel ∧ r.passes = s.passes + k + 1 ∧
        (∀ j, j < k → w.now (s.passes + j + 1) - st < sec) ∧
        sec ≤ w.now (s.passes + k + 1) - st := by
  intro fuel
  induction fuel with
  | zero => intro s r h; simp [run_cpu_loop] at h
  | succ f ih =>
    intro s r h
    rw [run_cpu_loop] at h
    by_cases hhit : sec ≤ w.now (s.passes + 1) - st
    · simp only [hhit, if_true, Option.some.injEq] at h
      refine ⟨0, by omega, ?_, ?_, ?_⟩
      · rw [← h]
      · intro j hj; omega
      · simpa using hhit
    · simp only [hhit, if_false] at h
      obtain ⟨k, hk, hp, hb, hh⟩ := ih _ r h
      have e : ∀ j, s.passes + 1 + j + 1 = s.passes + (j + 1) + 1 := fun j => by omega
      simp only [e] at hp hb hh
      refine ⟨k + 1, by omega, hp, ?_, hh⟩
      intro j hj
      cases j with
      | zero => simpa using lt_of_not_le hhit
      | succ j => exact hb j (by omega)

theorem N_eq : N = 1048576 := by decide

theorem gflops_of_ne_zero (flops : ℕ) (t : ℚ) (ht : t ≠ 0) :
    gflops flops t = some (((flops : ℚ) / t) / 1000000000) := by
  simp [gflops, ht]

/-- The result of `run_cpu` when pass `k` is the first whose reading reaches
`sec`. -/
theorem run_cpu_spec {α : Type} (A : FArith α) (w : CpuWorld) (sec : ℚ) (k fuel : ℕ)
    (hk : 1 ≤ k) (hfuel : k ≤ fuel)
    (hbefore : ∀ j, 1 ≤ j → j < k → w.now j - w.now 0 < sec)
    (hhit : sec ≤ w.now k - w.now 0) :
    run_cpu A w sec fuel = some
      { bufs := run_cpu_passes A w.sched 0 k (run_cpu_init A)
        flops := (k * N * 8) % 2 ^ 64
        passes := k
        t := w.now k - w.now 0
        out := [Out.text "CPU MAX\n",
          Out.num (gflops ((k * N * 8) % 2 ^ 64) (w.now k - w.now 0)),
          Out.text " GFLOPS\n"] } := by
  obtain ⟨k', rfl⟩ : ∃ k', k = k' + 1 := ⟨k - 1, by omega⟩
  have h := run_cpu_loop_spec A w sec (w.now 0) k' fuel
    { bufs := run_cpu_init A, flops := 0, passes := 0 } (by omega)
    (by intro j hj; simpa using hbefore (j + 1) (by omega) (by omega))
    (by simpa using hhit)
  rw [run_cpu, h]
  have e : 0 + (k' + 1) * (N * 8) = (k' + 1) * N * 8 := by ring
  simp only [e, Nat.zero_add, SIZE_BITS]

/-- A returning `run_cpu` stopped at the first pass whose reading reaches
`sec`. -/
theorem run_cpu_sound {α : Type} (A : FArith α) (w : CpuWorld) (sec : ℚ) (fuel : ℕ)
    (r : CpuResult α) (h : run_cpu A w sec fuel = some r) :
    1 ≤ r.passes ∧ r.passes ≤ fuel ∧
      (∀ j, 1 ≤ j → j < r.passes → w.now j - w.now 0 < sec) ∧
      sec ≤ w.now r.passes - w.now 0 := by
  obtain ⟨k, hk, hp, hb, hh⟩ := run_cpu_loop_sound A w sec (w.now 0) fuel _ r h
  simp only [Nat.zero_add] at hp hb hh
  rw [hp]
  refine ⟨by omega, by omega, ?_, hh⟩
  intro j hj1 hj2
  obtain ⟨j', rfl⟩ : ∃ j', j = j' + 1 := ⟨j - 1, by omega⟩
  exact hb j' (by omega)

/-! ## Claims on the accounting and the timing of `run_cpu` -/

/-- C2: for every target duration `d > 0` and every sequence of clock readings,
when `run_cpu` stops after `k` completed passes with elapsed time `t`, the
64-bit operation counter equals `k * N * 8` reduced modulo `2^64`, which for
`k < 2^41` is `k * N * 8` itself (`N = 2^20`), and the value written is
`(k * N * 8) / t / 1e9`.  The run does stop after `k` passes when pass `k` is
the first whose elapsed reading reaches `d` and the fuel allows `k` passes. -/
theorem C2_cpu_counter_and_report {α : Type} (A : FArith α) (w : CpuWorld) (d : ℚ)
    (hd : 0 < d) :
    N = 2 ^ 20 ∧
    (∀ fuel r, run_cpu A w d fuel = some r →
      r.t = w.now r.passes - w.now 0 ∧
      r.flops = (r.passes * N * 8) % 2 ^ 64 ∧
      (r.passes < 2 ^ 41 →
        r.flops = r.passes * N * 8 ∧
        r.out = [Out.text "CPU MAX\n",
          Out.num (some ((((r.passes * N * 8 : ℕ) : ℚ) / r.t) / 1000000000)),
          Out.text " GFLOPS\n"])) ∧
    (∀ k fuel, 1 ≤ k → k ≤ fuel →
      (∀ j, 1 ≤ j → j < k → w.now j - w.now 0 < d) → d ≤ w.now k - w.now 0 →
      ∃ r, run_cpu A w d fuel = some r ∧ r.passes = k ∧ r.t = w.now k - w.now 0) := by
  refine ⟨by decide, ?_, ?_⟩
  · intro fuel r h
    obtain ⟨h1, h2, hb, hh⟩ := run_cpu_sound A w d fuel r h
    have hs := run_cpu_spec A w d r.passes fuel h1 h2 hb hh
    rw [h] at hs
    have hr := Option.some.inj hs
    have ht : r.t = w.now r.passes - w.now 0 := by rw [hr]
    have hf : r.flops = (r.passes * N * 8) % 2 ^ 64 := by rw [hr]
    refine ⟨ht, hf, ?_⟩
    intro hlt
    have hmod : (r.passes * N * 8) % 2 ^ 64 = r.passes * N * 8 := by
      apply Nat.mod_eq_of_lt
      rw [N_eq]
      omega
    have hne : w.now r.passes - w.now 0 ≠ 0 := ne_of_gt (lt_of_lt_of_le hd hh)
    refine ⟨by rw [hf, hmod], ?_⟩
    have ho : r.out = [Out.text "CPU MAX\n",
        Out.num (gflops ((r.passes * N * 8) % 2 ^ 64) (w.now r.passes - w.now 0)),
        Out.text " GFLOPS\n"] := by rw [hr]
    rw [ho, hmod, gflops_of_ne_zero _ _ hne, ht]
  · intro k fuel hk hfuel hb hh
    exact ⟨_, run_cpu_spec A w d k fuel hk hfuel hb hh, rfl, rfl⟩

/-- C2 at duration 2 with a clock ticking once per pass: two passes. -/
theorem C2_cpu_counter_and_report_witness :
    (0 : ℚ) < 2 ∧
    ∃ r, run_cpu exactQ unitClock 2 5 = some r ∧ r.passes = 2 ∧
      r.t = unitClock.now 2 - unitClock.now 0 ∧
      r.flops = 2 * N * 8 ∧
      r.out = [Out.text "CPU MAX\n",
        Out.num (some ((((2 * N * 8 : ℕ) : ℚ) / r.t) / 1000000000)),
        Out.text " GFLOPS\n"] := by
  have hd : (0 : ℚ) < 2 := by norm_num
  have hC := C2_cpu_counter_and_report exactQ unitClock 2 hd
  obtain ⟨r, hr, hp, ht⟩ := hC.2.2 2 5 (by norm_num) (by norm_num)
    (by
      intro j h1 h2
      have : j = 1 := by omega
      subst this
      norm_num [unitClock])
    (by norm_num [unitClock])
  obtain ⟨_, _, h3⟩ := hC.2.1 5 r hr
  rw [hp] at h3
  exact ⟨hd, r, hr, hp, ht, (h3 (by norm_num)).1, (h3 (by norm_num)).2⟩

/-- C4: for every target duration `d > 0` and every sequence of elapsed-time
readings `T_j = now j - now 0` (so `T_0 = 0`), `run_cpu` stops at the first pass
`k` whose reading satisfies `T_k ≥ d`; the elapsed time `t = T_k` it reports
satisfies `d ≤ t` and `t < d + (T_k - T_(k-1))`. -/
theorem C4_cpu_stops_at_first_reading {α : Type} (A : FArith α) (w : CpuWorld) (d : ℚ)
    (hd : 0 < d) :
    (∀ k fuel, 1 ≤ k → k ≤ fuel →
      (∀ j, 1 ≤ j → j < k → w.now j - w.now 0 < d) → d ≤ w.now k - w.now 0 →
      ∃ r, run_cpu A w d fuel = some r ∧ r.passes = k ∧ r.t = w.now k - w.now 0 ∧
        d ≤ r.t ∧ r.t < d + ((w.now k - w.now 0) - (w.now (k - 1) - w.now 0))) ∧
    (∀ fuel r, run_cpu A w d fuel = some r →
      1 ≤ r.passes ∧
      (∀ j, 1 ≤ j → j < r.passes → w.now j - w.now 0 < d) ∧
      d ≤ w.now r.passes - w.now 0 ∧
      r.t = w.now r.passes - w.now 0 ∧
      d ≤ r.t ∧
      r.t < d + ((w.now r.passes - w.now 0) - (w.now (r.passes - 1) - w.now 0))) := by
  have key : ∀ k, 1 ≤ k → (∀ j, 1 ≤ j → j < k → w.now j - w.now 0 < d) →
      w.now (k - 1) - w.now 0 < d := by
    intro k hk hb
    rcases Nat.eq_or_lt_of_le hk with h1 | h1
    · rw [← h1]; simpa using hd
    · exact hb (k - 1) (by omega) (by omega)
  constructor
  · intro k fuel hk hfuel hb hh
    refine ⟨_, run_cpu_spec A w d k fuel hk hfuel hb hh, rfl, rfl, hh, ?_⟩
    have := key k hk hb
    show w.now k - w.now 0 < _
    linarith
  · intro fuel r h
    obtain ⟨h1, h2, hb, hh⟩ := run_cpu_sound A w d fuel r h
    have hs := run_cpu_spec A w d r.passes fuel h1 h2 hb hh
    rw [h] at hs
    have hr := Option.some.inj hs
    have ht : r.t = w.now r.passes - w.now 0 := by rw [hr]
    have := key r.passes h1 hb
    refine ⟨h1, hb, hh, ht, by rw [ht]; exact hh, ?_⟩
    rw [ht]
    linarith

/-- C4 at duration 2 with a clock ticking once per pass: two passes. -/
theorem C4_cpu_stops_at_first_reading_witness :
    (0 : ℚ) < 2 ∧
    ∃ r, run_cpu exactQ unitClock 2 5 = some r ∧ r.passes = 2 ∧
      r.t = unitClock.now 2 - unitClock.now 0 ∧ 2 ≤ r.t ∧
      r.t < 2 + ((unitClock.now 2 - unitClock.now 0) -
        (unitClock.now (2 - 1) - unitClock.now 0)) := by
  have hd : (0 : ℚ) < 2 := by norm_num
  exact ⟨hd, (C4_cpu_stops_at_first_reading exactQ unitClock 2 hd).1 2 5 (by norm_num)
    (by norm_num)
    (by
      intro j h1 h2
      have : j = 1 := by omega
      subst this
      norm_num [unitClock])
    (by norm_num [unitClock])⟩

/-! ## Lemmas on the loop of `run_gpu` -/

/-- The loop returns at the first dispatch whose reading reaches `sec`, when
the fuel allows that many dispatches. -/
theorem run_gpu_loop_spec {α : Type} (A : FArith α) (w : GpuWorld α) (sec st : ℚ) :
    ∀ (k fuel : ℕ) (s : GpuState α), k < fuel →
      (∀ j, j < k → w.now (s.dispatches + j + 1) - st < sec) →
      sec ≤ w.now (s.dispatches + k + 1) - st →
      run_gpu_loop A w sec st fuel s = some
        { trace := s.trace ++ loopEvents (k + 1) ++
            [Event.out (Out.text "GPU MAX\n"),
             Event.out (Out.num (gflops ((s.flops + (k + 1) * (N * 16)) % 2 ^ SIZE_BITS)
               (w.now (s.dispatches + k + 1) - st))),
             Event.out (Out.text " GFLOPS\n")] ++ run_gpu_release
          outcome := GpuOutcome.ran
            (run_gpu_dispatches A w.sched s.dispatches (k + 1) s.bufs)
            ((s.flops + (k + 1) * (N * 16)) % 2 ^ SIZE_BITS)
            (s.dispatches + k + 1)
            (w.now (s.dispatches + k + 1) - st) } := by
  intro k
  induction k with
  | zero =>
    intro fuel s hf _ hhit
    cases fuel with
    | zero => omega
    | succ f =>
      have hhit1 : sec ≤ w.now (s.dispatches + 1) - st := by simpa using hhit
      simp [run_gpu_loop, hhit1, run_gpu_dispatches, loopEvents]
  | succ k ih =>
    intro fuel s hf hbefore hhit
    cases fuel with
    | zero => omega
    | succ f =>
      have h0 : ¬ sec ≤ w.now (s.dispatches + 1) - st := by
        have := hbefore 0 (by omega)
        simpa using this
      have e : ∀ j, s.dispatches + 1 + j + 1 = s.dispatches + (j + 1) + 1 := fun j => by omega
      rw [run_gpu_loop]
      simp only [h0, if_false]
      rw [ih f _ (by omega)
        (by intro j hj; simp only [e]; exact hbefore (j + 1) (by omega))
        (by simp only [e]; exact hhit)]
      simp only [e, run_gpu_dispatches, counter_step]
      have e2 : N * 16 + (k + 1) * (N * 16) = (k + 1 + 1) * (N * 16) := by ring
      rw [e2]
      simp [loopEvents]

/-- A run of the loop that returns has stopped at the first dispatch whose
reading reaches `sec`. -/
theorem run_gpu_loop_sound {α : Type} (A : FArith α) (w : GpuWorld α) (sec st : ℚ) :
    ∀ (fuel : ℕ) (s : GpuState α) (r : GpuResult α),
      run_gpu_loop A w sec st fuel s = some r →
      ∃ k, k < fuel ∧
        (∀ j, j < k → w.now (s.dispatches + j + 1) - st < sec) ∧
        sec ≤ w.now (s.dispatches + k + 1) - st := by
  intro fuel
  induction fuel with
  | zero => intro s r h; simp [run_gpu_loop] at h
  | succ f ih =>
    intro s r h
    rw [run_gpu_loop] at h
    by_cases hhit : sec ≤ w.now (s.dispatches + 1) - st
    · refine ⟨0, by omega, ?_, ?_⟩
      · intro j hj; omega
      · simpa using hhit
    · simp only [hhit, if_false] at h
      obtain ⟨k, hk, hb, hh⟩ := ih _ r h
      have e : ∀ j, s.dispatches + 1 + j + 1 = s.dispatches + (j + 1) + 1 := fun j => by omega
      simp only [e] at hb hh
      refine ⟨k + 1, by omega, ?_, hh⟩
      intro j hj
      cases j with
      | zero => simpa using lt_of_not_le hhit
      | succ j => exact hb j (by omega)

/-- The result of `run_gpu` on a host with a GPU when dispatch `k` is the first
whose reading reaches `sec`. -/
theorem run_gpu_spec {α : Type} (A : FArith α) (w : GpuWorld α) (sec : ℚ) (k fuel : ℕ)
    (hw : w.found) (hk : 1 ≤ k) (hfuel : k ≤ fuel)
    (hbefore : ∀ j, 1 ≤ j → j < k → w.now j - w.now 0 < sec)
    (hhit : sec ≤ w.now k - w.now 0) :
    run_gpu A w sec fuel = some
      { trace := [Event.cl ClCall.clGetPlatformIDs, Event.cl ClCall.clGetDeviceIDs] ++
          run_gpu_setup ++ [Event.clock] ++ loopEvents k ++
          [Event.out (Out.text "GPU MAX\n"),
           Event.out (Out.num (gflops ((k * N * 16) % 2 ^ 64) (w.now k - w.now 0))),
           Event.out (Out.text " GFLOPS\n")] ++ run_gpu_release
        outcome := GpuOutcome.ran (run_gpu_dispatches A w.sched 0 k (run_gpu_init A w))
          ((k * N * 16) % 2 ^ 64) k (w.now k - w.now 0) } := by
  obtain ⟨k', rfl⟩ : ∃ k', k = k' + 1 := ⟨k - 1, by omega⟩
  obtain ⟨hp, hc, hdv⟩ := hw
  have h := run_gpu_loop_spec A w sec (w.now 0) k' fuel
    { bufs := run_gpu_init A w, flops := 0, dispatches := 0,
      trace := [Event.cl ClCall.clGetPlatformIDs, Event.cl ClCall.clGetDeviceIDs] ++
        run_gpu_setup ++ [Event.clock] } (by omega)
    (by intro j hj; simpa using hbefore (j + 1) (by omega) (by omega))
    (by simpa using hhit)
  have hcond : ¬ (w.platStatus ≠ CL_SUCCESS ∨ w.platCount = 0) := by
    intro hh
    rcases hh with hh | hh
    · exact hh hp
    · exact hc hh
  rw [run_gpu, if_neg hcond, if_neg (not_not.2 hdv), h]
  have e : 0 + (k' + 1) * (N * 16) = (k' + 1) * N * 16 := by ring
  simp only [e, Nat.zero_add, SIZE_BITS]

/-- A returning `run_gpu` on a host with a GPU stopped at the first dispatch
whose reading reaches `sec`. -/
theorem run_gpu_sound {α : Type} (A : FArith α) (w : GpuWorld α) (sec : ℚ) (fuel : ℕ)
    (hw : w.found) (r : GpuResult α) (h : run_gpu A w sec fuel = some r) :
    ∃ k, 1 ≤ k ∧ k ≤ fuel ∧
      (∀ j, 1 ≤ j → j < k → w.now j - w.now 0 < sec) ∧
      sec ≤ w.now k - w.now 0 := by
  obtain ⟨hp, hc, hdv⟩ := hw
  have hcond : ¬ (w.platStatus ≠ CL_SUCCESS ∨ w.platCount = 0) := by
    intro hh
    rcases hh with hh | hh
    · exact hh hp
    · exact hc hh
  rw [run_gpu, if_neg hcond, if_neg (not_not.2 hdv)] at h
  obtain ⟨k, hk, hb, hh⟩ := run_gpu_loop_sound A w sec (w.now 0) fuel _ r h
  simp only [Nat.zero_add] at hb hh
  refine ⟨k + 1, by omega, by omega, ?_, hh⟩
  intro j hj1 hj2
  obtain ⟨j', rfl⟩ : ∃ j', j = j' + 1 := ⟨j - 1, by omega⟩
  exact hb j' (by omega)

/-! ## Claims on the accounting of `run_gpu` -/

theorem callsOf_append (l₁ l₂ : List Event) : callsOf (l₁ ++ l₂) = callsOf l₁ ++ callsOf l₂ := by
  simp [callsOf, List.filterMap_append]

theorem callsOf_loopEvents (k : ℕ) :
    callsOf (loopEvents k) = (List.replicate k
      [ClCall.clEnqueueNDRangeKernel global_size local_size, ClCall.clFinish]).flatten := by
  induction k with
  | zero => rfl
  | succ k ih =>
    rw [loopEvents, callsOf_append, ih, List.replicate_succ, List.flatten_cons]
    rfl

theorem mem_callsOf_loopEvents (k : ℕ) (c : ClCall) (hc : c ∈ callsOf (loopEvents k)) :
    c = ClCall.clEnqueueNDRangeKernel global_size local_size ∨ c = ClCall.clFinish := by
  induction k with
  | zero => simp [loopEvents, callsOf] at hc
  | succ k ih =>
    rw [loopEvents, callsOf_append, List.mem_append] at hc
    rcases hc with hc | hc
    · simp [callsOf] at hc
      exact hc
    · exact ih hc

theorem gpuUnit_found : gpuUnit.found := by
  simp [GpuWorld.found, gpuUnit, CL_SUCCESS]

theorem gpuLate_found : gpuLate.found := by
  simp [GpuWorld.found, gpuLate, CL_SUCCESS]

theorem gpuStill_found : gpuStill.found := by
  simp [GpuWorld.found, gpuStill, CL_SUCCESS]

/-- C3, as stated, fails: on a host with a GPU whose clock lets `run_gpu` stop
after `k = 2^40` dispatches, the 64-bit operation counter is `0`, not
`k * N * 16`. -/
theorem C3_counterexample :
    ∃ r bufs t, run_gpu exactQ gpuLate 1 (2 ^ 40) = some r ∧
      r.outcome = GpuOutcome.ran bufs 0 (2 ^ 40) t ∧ (0 : ℕ) ≠ 2 ^ 40 * N * 16 := by
  have h := run_gpu_spec exactQ gpuLate 1 (2 ^ 40) (2 ^ 40) gpuLate_found (by norm_num)
    (le_refl _)
    (by
      intro j _ hj
      have hj' : j < 1099511627776 := by omega
      simp [gpuLate, hj'])
    (by simp [gpuLate])
  have hz : (2 ^ 40 * N * 16) % 2 ^ 64 = 0 := by rw [N_eq]; norm_num
  refine ⟨_, run_gpu_dispatches exactQ gpuLate.sched 0 (2 ^ 40) (run_gpu_init exactQ gpuLate),
    gpuLate.now (2 ^ 40) - gpuLate.now 0, h, ?_, ?_⟩
  · simp only [hz]
  · rw [N_eq]; norm_num

/-- C3, amended: when `run_gpu` stops after `k` completed dispatches with
elapsed time `t`, the 64-bit operation counter equals `k * N * 16` reduced
modulo `2^64`, which for `k < 2^40` is `k * N * 16` itself (`N = 2^20`); the
value written is `counter / t / 1e9`; and `t = now k - now 0`, where `now 0`
is the reading taken after the discovery calls and all of the setup calls
(context, queue, buffers, uploads, program, build, kernel, kernel arguments)
have returned, every later call before the report being a kernel launch or a
`clFinish`.  The run does stop after `k` dispatches when dispatch `k` is the
first whose elapsed reading reaches the target and the fuel allows `k`
dispatches. -/
theorem C3_gpu_counter_and_report {α : Type} (A : FArith α) (w : GpuWorld α) (sec : ℚ)
    (hw : w.found) :
    N = 2 ^ 20 ∧
    (∀ fuel r, run_gpu A w sec fuel = some r →
      ∃ k bufs, 1 ≤ k ∧
        r.outcome = GpuOutcome.ran bufs ((k * N * 16) % 2 ^ 64) k (w.now k - w.now 0) ∧
        (k < 2 ^ 40 → (k * N * 16) % 2 ^ 64 = k * N * 16) ∧
        r.trace = [Event.cl ClCall.clGetPlatformIDs, Event.cl ClCall.clGetDeviceIDs] ++
          run_gpu_setup ++ [Event.clock] ++ loopEvents k ++
          [Event.out (Out.text "GPU MAX\n"),
           Event.out (Out.num (gflops ((k * N * 16) % 2 ^ 64) (w.now k - w.now 0))),
           Event.out (Out.text " GFLOPS\n")] ++ run_gpu_release ∧
        (∀ c, c ∈ callsOf (loopEvents k) →
          c = ClCall.clEnqueueNDRangeKernel global_size local_size ∨ c = ClCall.clFinish)) ∧
    (∀ k fuel, 1 ≤ k → k ≤ fuel →
      (∀ j, 1 ≤ j → j < k → w.now j - w.now 0 < sec) → sec ≤ w.now k - w.now 0 →
      ∃ r bufs, run_gpu A w sec fuel = some r ∧
        r.outcome = GpuOutcome.ran bufs ((k * N * 16) % 2 ^ 64) k (w.now k - w.now 0)) := by
  refine ⟨by decide, ?_, ?_⟩
  · intro fuel r h
    obtain ⟨k, h1, h2, hb, hh⟩ := run_gpu_sound A w sec fuel hw r h
    have hs := run_gpu_spec A w sec k fuel hw h1 h2 hb hh
    rw [h] at hs
    have hr := Option.some.inj hs
    refine ⟨k, _, h1, by rw [hr], ?_, by rw [hr], mem_callsOf_loopEvents k⟩
    intro hlt
    apply Nat.mod_eq_of_lt
    rw [N_eq]
    omega
  · intro k fuel hk hfuel hb hh
    exact ⟨_, _, run_gpu_spec A w sec k fuel hw hk hfuel hb hh, rfl⟩

/-- C3 at duration 2 with a clock ticking once per dispatch: two dispatches. -/
theorem C3_gpu_counter_and_report_witness :
    gpuUnit.found ∧
    ∃ r bufs, run_gpu exactQ gpuUnit 2 5 = some r ∧
      r.outcome = GpuOutcome.ran bufs ((2 * N * 16) % 2 ^ 64) 2
        (gpuUnit.now 2 - gpuUnit.now 0) :=
  ⟨gpuUnit_found,
    (C3_gpu_counter_and_report exactQ gpuUnit 2 gpuUnit_found).2.2 2 5 (by norm_num)
      (by norm_num)
      (by
        intro j h1 h2
        have : j = 1 := by omega
        subst this
        norm_num [gpuUnit])
      (by norm_num [gpuUnit])⟩

/-! ## Lemmas on the events of `run_gpu` -/

theorem stdoutOf_append (l₁ l₂ : List Event) :
    stdoutOf (l₁ ++ l₂) = stdoutOf l₁ ++ stdoutOf l₂ := by
  simp [stdoutOf, List.filterMap_append]

theorem stderrOf_append (l₁ l₂ : List Event) :
    stderrOf (l₁ ++ l₂) = stderrOf l₁ ++ stderrOf l₂ := by
  simp [stderrOf, List.filterMap_append]

theorem acquiredOf_append (l₁ l₂ : List Event) :
    acquiredOf (l₁ ++ l₂) = acquiredOf l₁ ++ acquiredOf l₂ := by
  simp [acquiredOf, callsOf_append, List.filterMap_append]

theorem releasedOf_append (l₁ l₂ : List Event) :
    releasedOf (l₁ ++ l₂) = releasedOf l₁ ++ releasedOf l₂ := by
  simp [releasedOf, callsOf_append, List.filterMap_append]

theorem stdoutOf_loopEvents (k : ℕ) : stdoutOf (loopEvents k) = [] := by
  induction k with
  | zero => rfl
  | succ k ih => rw [loopEvents, stdoutOf_append, ih]; rfl

theorem stderrOf_loopEvents (k : ℕ) : stderrOf (loopEvents k) = [] := by
  induction k with
  | zero => rfl
  | succ k ih => rw [loopEvents, stderrOf_append, ih]; rfl

theorem acquiredOf_loopEvents (k : ℕ) : acquiredOf (loopEvents k) = [] := by
  induction k with
  | zero => rfl
  | succ k ih => rw [loopEvents, acquiredOf_append, ih]; rfl

theorem releasedOf_loopEvents (k : ℕ) : releasedOf (loopEvents k) = [] := by
  induction k with
  | zero => rfl
  | succ k ih => rw [loopEvents, releasedOf_append, ih]; rfl

theorem stdoutOf_successTrace (k : ℕ) (v : Option ℚ) :
    stdoutOf (successTrace k v) =
      [Out.text "GPU MAX\n", Out.num v, Out.text " GFLOPS\n"] := by
  simp only [successTrace, stdoutOf_append, stdoutOf_loopEvents]
  rfl

theorem stderrOf_successTrace (k : ℕ) (v : Option ℚ) : stderrOf (successTrace k v) = [] := by
  simp only [successTrace, stderrOf_append, stderrOf_loopEvents]
  rfl

theorem acquiredOf_successTrace (k : ℕ) (v : Option ℚ) :
    acquiredOf (successTrace k v) =
      [Res.ctx, Res.q, Res.a, Res.b, Res.c, Res.pr, Res.k] := by
  simp only [successTrace, acquiredOf_append, acquiredOf_loopEvents]
  rfl

theorem releasedOf_successTrace (k : ℕ) (v : Option ℚ) :
    releasedOf (successTrace k v) =
      [Res.k, Res.pr, Res.a, Res.b, Res.c, Res.q, Res.ctx] := by
  simp only [successTrace, releasedOf_append, releasedOf_loopEvents]
  rfl

/-- The events of a returning `run_gpu` on a host with a GPU. -/
theorem run_gpu_trace {α : Type} (A : FArith α) (w : GpuWorld α) (sec : ℚ) (fuel : ℕ)
    (hw : w.found) (r : GpuResult α) (h : run_gpu A w sec fuel = some r) :
    ∃ k, 1 ≤ k ∧ k ≤ fuel ∧ sec ≤ w.now k - w.now 0 ∧
      (∀ j, 1 ≤ j → j < k → w.now j - w.now 0 < sec) ∧
      r.trace = successTrace k (gflops ((k * N * 16) % 2 ^ 64) (w.now k - w.now 0)) ∧
      r.outcome = GpuOutcome.ran (run_gpu_dispatches A w.sched 0 k (run_gpu_init A w))
        ((k * N * 16) % 2 ^ 64) k (w.now k - w.now 0) := by
  obtain ⟨k, h1, h2, hb, hh⟩ := run_gpu_sound A w sec fuel hw r h
  have hs := run_gpu_spec A w sec k fuel hw h1 h2 hb hh
  rw [h] at hs
  have hr := Option.some.inj hs
  exact ⟨k, h1, h2, hh, hb, by rw [hr]; rfl, by rw [hr]⟩

/-! ## Claims on a zero duration, on a missing GPU and on the releases -/

theorem gflops_pos (flops : ℕ) (t : ℚ) (hf : 0 < flops) (ht : 0 < t) :
    ∃ v, 0 < v ∧ gflops flops t = some v := by
  refine ⟨((flops : ℚ) / t) / 1000000000, ?_, gflops_of_ne_zero flops t (ne_of_gt ht)⟩
  have : (0 : ℚ) < flops := by exact_mod_cast hf
  positivity

/-- C5, as stated, fails: with duration `0` and a clock whose reading after the
first iteration equals the start reading, `run_cpu` completes one pass and the
value it writes is not finite (a division by zero); so does `run_gpu`. -/
theorem C5_counterexample :
    (∃ r, run_cpu exactQ stillClock 0 1 = some r ∧ r.passes = 1 ∧ r.t = 0 ∧
      r.out = [Out.text "CPU MAX\n", Out.num none, Out.text " GFLOPS\n"]) ∧
    (∃ r, run_gpu exactQ gpuStill 0 1 = some r ∧
      stdoutOf r.trace = [Out.text "GPU MAX\n", Out.num none, Out.text " GFLOPS\n"]) := by
  constructor
  · have h := run_cpu_spec exactQ stillClock 0 1 1 (le_refl _) (le_refl _)
      (by intro j h1 h2; omega) (by simp [stillClock])
    refine ⟨_, h, rfl, by simp [stillClock], ?_⟩
    simp [gflops, stillClock]
  · have h := run_gpu_spec exactQ gpuStill 0 1 1 gpuStill_found (le_refl _) (le_refl _)
      (by intro j h1 h2; omega) (by simp [gpuStill])
    refine ⟨_, h, ?_⟩
    have e := stdoutOf_successTrace 1 (gflops ((1 * N * 16) % 2 ^ 64)
      (gpuStill.now 1 - gpuStill.now 0))
    simp only [successTrace] at e
    rw [e]
    simp [gflops, gpuStill]

/-- C5, amended: given duration `0` and a clock whose first reading after the
start is not before the start reading, `run_cpu` and, on a host with a GPU,
`run_gpu` each complete exactly one iteration of their loop; the value each
writes is finite and positive when that reading is after the start reading,
and is not finite when the two readings are equal. -/
theorem C5_zero_duration {α : Type} (A : FArith α) (cw : CpuWorld) (gw : GpuWorld α)
    (fuel : ℕ) (hgw : gw.found) (hfuel : 1 ≤ fuel)
    (hc : cw.now 0 ≤ cw.now 1) (hg : gw.now 0 ≤ gw.now 1) :
    (∃ r, run_cpu A cw 0 fuel = some r ∧ r.passes = 1 ∧ r.flops = N * 8 ∧
      r.out = [Out.text "CPU MAX\n", Out.num (gflops (N * 8) (cw.now 1 - cw.now 0)),
        Out.text " GFLOPS\n"] ∧
      (cw.now 0 < cw.now 1 → ∃ v, 0 < v ∧ gflops (N * 8) (cw.now 1 - cw.now 0) = some v) ∧
      (cw.now 0 = cw.now 1 → gflops (N * 8) (cw.now 1 - cw.now 0) = none)) ∧
    (∃ r bufs, run_gpu A gw 0 fuel = some r ∧
      r.outcome = GpuOutcome.ran bufs (N * 16) 1 (gw.now 1 - gw.now 0) ∧
      launchesOf r.trace = [ClCall.clEnqueueNDRangeKernel global_size local_size] ∧
      stdoutOf r.trace = [Out.text "GPU MAX\n",
        Out.num (gflops (N * 16) (gw.now 1 - gw.now 0)), Out.text " GFLOPS\n"] ∧
      (gw.now 0 < gw.now 1 → ∃ v, 0 < v ∧ gflops (N * 16) (gw.now 1 - gw.now 0) = some v) ∧
      (gw.now 0 = gw.now 1 → gflops (N * 16) (gw.now 1 - gw.now 0) = none)) := by
  have h8 : (1 * N * 8) % 2 ^ 64 = N * 8 := by rw [N_eq]; norm_num
  have h16 : (1 * N * 16) % 2 ^ 64 = N * 16 := by rw [N_eq]; norm_num
  have hN8 : 0 < N * 8 := by rw [N_eq]; norm_num
  have hN16 : 0 < N * 16 := by rw [N_eq]; norm_num
  constructor
  · have h := run_cpu_spec A cw 0 1 fuel (le_refl _) hfuel (by intro j h1 h2; omega)
      (by linarith)
    rw [h8] at h
    refine ⟨_, h, rfl, rfl, rfl, ?_, ?_⟩
    · intro hlt
      exact gflops_pos _ _ hN8 (by linarith)
    · intro heq
      simp [gflops, heq]
  · have h := run_gpu_spec A gw 0 1 fuel hgw (le_refl _) hfuel (by intro j h1 h2; omega)
      (by linarith)
    rw [h16] at h
    refine ⟨_, _, h, rfl, ?_, ?_, ?_, ?_⟩
    · simp [launchesOf, callsOf, run_gpu_setup, loopEvents, run_gpu_release]
    · exact stdoutOf_successTrace 1 _
    · intro hlt
      exact gflops_pos _ _ hN16 (by linarith)
    · intro heq
      simp [gflops, heq]

/-- C5 with clocks ticking once per iteration. -/
theorem C5_zero_duration_witness :
    gpuUnit.found ∧ 1 ≤ 3 ∧ unitClock.now 0 ≤ unitClock.now 1 ∧
    gpuUnit.now 0 ≤ gpuUnit.now 1 ∧
    (∃ r, run_cpu exactQ unitClock 0 3 = some r ∧ r.passes = 1 ∧ r.flops = N * 8) ∧
    (∃ r bufs, run_gpu exactQ gpuUnit 0 3 = some r ∧
      r.outcome = GpuOutcome.ran bufs (N * 16) 1 (gpuUnit.now 1 - gpuUnit.now 0)) := by
  have hc : unitClock.now 0 ≤ unitClock.now 1 := by norm_num [unitClock]
  have hg : gpuUnit.now 0 ≤ gpuUnit.now 1 := by norm_num [gpuUnit]
  obtain ⟨⟨r, hr, hp, hf, _⟩, ⟨r', bufs, hr', ho, _⟩⟩ :=
    C5_zero_duration exactQ unitClock gpuUnit 3 gpuUnit_found (by norm_num) hc hg
  exact ⟨gpuUnit_found, by norm_num, hc, hg, ⟨r, hr, hp, hf⟩, ⟨r', bufs, hr', ho⟩⟩

/-- C6: if platform enumeration fails or reports zero platforms, or the device
query on the first platform fails (no GPU device), `run_gpu` returns, whatever
the duration and the fuel; it writes exactly one line to the error stream, "No
OpenCL platform" in the first two cases and "GPU not found" in the third,
writes nothing to standard output, creates no object, launches nothing (its
only OpenCL calls are the discovery calls), and `main` then returns 0 with the
output of `run_cpu` alone on standard output. -/
theorem C6_gpu_unavailable {α : Type} (A : FArith α) (w : GpuWorld α)
    (h : w.platStatus ≠ CL_SUCCESS ∨ w.platCount = 0 ∨ w.devStatus ≠ CL_SUCCESS) :
    ∀ (sec : ℚ) (fuel : ℕ), ∃ r, run_gpu A w sec fuel = some r ∧
      stderrOf r.trace =
        [if w.platStatus ≠ CL_SUCCESS ∨ w.platCount = 0 then "No OpenCL platform\n"
         else "GPU not found\n"] ∧
      stdoutOf r.trace = [] ∧
      acquiredOf r.trace = [] ∧
      launchesOf r.trace = [] ∧
      (∀ c, c ∈ callsOf r.trace → c = ClCall.clGetPlatformIDs ∨ c = ClCall.clGetDeviceIDs) ∧
      (∀ (cw : CpuWorld) (arg : Option ℚ) (rc : CpuResult α),
        run_cpu A cw (arg.getD 1) fuel = some rc →
        main A cw w arg fuel = some
          { exitCode := 0, stdout := rc.out, stderr := stderrOf r.trace }) := by
  intro sec fuel
  by_cases hp : w.platStatus ≠ CL_SUCCESS ∨ w.platCount = 0
  · have hrun : ∀ s, run_gpu A w s fuel = some
        { trace := [Event.cl ClCall.clGetPlatformIDs, Event.err "No OpenCL platform\n"],
          outcome := GpuOutcome.noPlatform } := by
      intro s
      rw [run_gpu, if_pos hp]
    refine ⟨_, hrun sec, ?_, rfl, rfl, rfl, ?_, ?_⟩
    · simp [stderrOf, hp]
    · intro c hc
      simp [callsOf] at hc
      exact Or.inl hc
    · intro cw arg rc hrc
      cases arg with
      | none =>
        simp only [Option.getD_none] at hrc
        simp only [main, hrc, hrun 1]
        simp [stdoutOf]
      | some v =>
        simp only [Option.getD_some] at hrc
        simp only [main, hrc, hrun v]
        simp [stdoutOf]
  · have hd : w.devStatus ≠ CL_SUCCESS := by
      rcases h with h | h | h
      · exact absurd (Or.inl h) hp
      · exact absurd (Or.inr h) hp
      · exact h
    have hrun : ∀ s, run_gpu A w s fuel = some
        { trace := [Event.cl ClCall.clGetPlatformIDs, Event.cl ClCall.clGetDeviceIDs,
            Event.err "GPU not found\n"],
          outcome := GpuOutcome.noGpu } := by
      intro s
      rw [run_gpu, if_neg hp, if_pos hd]
    refine ⟨_, hrun sec, ?_, rfl, rfl, rfl, ?_, ?_⟩
    · simp [stderrOf, hp]
    · intro c hc
      simp [callsOf] at hc
      exact hc
    · intro cw arg rc hrc
      cases arg with
      | none =>
        simp only [Option.getD_none] at hrc
        simp only [main, hrc, hrun 1]
        simp [stdoutOf]
      | some v =>
        simp only [Option.getD_some] at hrc
        simp only [main, hrc, hrun v]
        simp [stdoutOf]

/-- C6 on a host that reports zero platforms and on a host whose platform has
no GPU device, with no fuel at all. -/
theorem C6_gpu_unavailable_witness :
    (gpuNoPlatform.platStatus ≠ CL_SUCCESS ∨ gpuNoPlatform.platCount = 0 ∨
      gpuNoPlatform.devStatus ≠ CL_SUCCESS) ∧
    (gpuNoDevice.platStatus ≠ CL_SUCCESS ∨ gpuNoDevice.platCount = 0 ∨
      gpuNoDevice.devStatus ≠ CL_SUCCESS) ∧
    (∃ r, run_gpu exactQ gpuNoPlatform 1 0 = some r ∧
      stderrOf r.trace = ["No OpenCL platform\n"] ∧ stdoutOf r.trace = [] ∧
      acquiredOf r.trace = [] ∧ launchesOf r.trace = []) ∧
    (∃ r, run_gpu exactQ gpuNoDevice 1 0 = some r ∧
      stderrOf r.trace = ["GPU not found\n"] ∧ stdoutOf r.trace = [] ∧
      acquiredOf r.trace = [] ∧ launchesOf r.trace = []) := by
  have hw : gpuNoPlatform.platStatus ≠ CL_SUCCESS ∨ gpuNoPlatform.platCount = 0 ∨
      gpuNoPlatform.devStatus ≠ CL_SUCCESS := Or.inr (Or.inl rfl)
  have hw' : gpuNoDevice.platStatus ≠ CL_SUCCESS ∨ gpuNoDevice.platCount = 0 ∨
      gpuNoDevice.devStatus ≠ CL_SUCCESS := Or.inr (Or.inr (by decide))
  obtain ⟨r, hr, he, ho, ha, hl, _⟩ := C6_gpu_unavailable exactQ gpuNoPlatform hw 1 0
  obtain ⟨r', hr', he', ho', ha', hl', _⟩ := C6_gpu_unavailable exactQ gpuNoDevice hw' 1 0
  refine ⟨hw, hw', ⟨r, hr, ?_, ho, ha, hl⟩, ⟨r', hr', ?_, ho', ha', hl'⟩⟩
  · rw [he]
    simp [gpuNoPlatform]
  · rw [he']
    simp [gpuNoDevice, CL_SUCCESS]

/-- C7, as stated, fails: in a successful run the release calls are not in the
reverse of the order in which the objects were acquired. -/
theorem C7_counterexample :
    ∃ r, run_gpu exactQ gpuUnit 1 1 = some r ∧
      acquiredOf r.trace = [Res.ctx, Res.q, Res.a, Res.b, Res.c, Res.pr, Res.k] ∧
      releasedOf r.trace = [Res.k, Res.pr, Res.a, Res.b, Res.c, Res.q, Res.ctx] ∧
      releasedOf r.trace ≠ (acquiredOf r.trace).reverse := by
  have h := run_gpu_spec exactQ gpuUnit 1 1 1 gpuUnit_found (le_refl _) (le_refl _)
    (by intro j h1 h2; omega) (by norm_num [gpuUnit])
  refine ⟨_, h, acquiredOf_successTrace 1 _, releasedOf_successTrace 1 _, ?_⟩
  have e1 := acquiredOf_successTrace 1 (gflops ((1 * N * 16) % 2 ^ 64)
    (gpuUnit.now 1 - gpuUnit.now 0))
  have e2 := releasedOf_successTrace 1 (gflops ((1 * N * 16) % 2 ^ 64)
    (gpuUnit.now 1 - gpuUnit.now 0))
  simp only [successTrace] at e1 e2
  rw [e1, e2]
  decide

/-- C7, amended: on the successful path `run_gpu` acquires context, queue,
buffers a, b, c, program and kernel in that order, and after reporting it
releases each of them exactly once, in the order kernel, program, buffer a,
buffer b, buffer c, queue, context: the reverse of the acquisition order
except that the three buffers are released in the order they were acquired. -/
theorem C7_gpu_releases {α : Type} (A : FArith α) (w : GpuWorld α) (sec : ℚ)
    (hw : w.found) :
    (∀ fuel r, run_gpu A w sec fuel = some r →
      acquiredOf r.trace = [Res.ctx, Res.q, Res.a, Res.b, Res.c, Res.pr, Res.k] ∧
      releasedOf r.trace = [Res.k, Res.pr, Res.a, Res.b, Res.c, Res.q, Res.ctx] ∧
      (releasedOf r.trace).Perm (acquiredOf r.trace) ∧
      (releasedOf r.trace).Nodup ∧
      ∃ pre v, r.trace = pre ++ run_gpu_release ∧ releasedOf pre = [] ∧
        stdoutOf pre = [Out.text "GPU MAX\n", Out.num v, Out.text " GFLOPS\n"] ∧
        stdoutOf run_gpu_release = []) ∧
    (∀ k fuel, 1 ≤ k → k ≤ fuel →
      (∀ j, 1 ≤ j → j < k → w.now j - w.now 0 < sec) → sec ≤ w.now k - w.now 0 →
      ∃ r, run_gpu A w sec fuel = some r) := by
  constructor
  · intro fuel r h
    obtain ⟨k, _, _, _, _, ht, _⟩ := run_gpu_trace A w sec fuel hw r h
    rw [ht, acquiredOf_successTrace, releasedOf_successTrace]
    refine ⟨rfl, rfl, by decide, by decide, ?_⟩
    refine ⟨[Event.cl ClCall.clGetPlatformIDs, Event.cl ClCall.clGetDeviceIDs] ++
      run_gpu_setup ++ [Event.clock] ++ loopEvents k ++
      [Event.out (Out.text "GPU MAX\n"),
       Event.out (Out.num (gflops ((k * N * 16) % 2 ^ 64) (w.now k - w.now 0))),
       Event.out (Out.text " GFLOPS\n")],
      gflops ((k * N * 16) % 2 ^ 64) (w.now k - w.now 0), rfl, ?_, ?_, rfl⟩
    · simp only [releasedOf_append, releasedOf_loopEvents]
      rfl
    · simp only [stdoutOf_append, stdoutOf_loopEvents]
      rfl
  · intro k fuel hk hfuel hb hh
    exact ⟨_, run_gpu_spec A w sec k fuel hw hk hfuel hb hh⟩

/-- C7 on a run of one dispatch. -/
theorem C7_gpu_releases_witness :
    gpuUnit.found ∧
    ∃ r, run_gpu exactQ gpuUnit 1 1 = some r ∧
      releasedOf r.trace = [Res.k, Res.pr, Res.a, Res.b, Res.c, Res.q, Res.ctx] := by
  have hC := C7_gpu_releases exactQ gpuUnit 1 gpuUnit_found
  obtain ⟨r, hr⟩ := hC.2 1 1 (le_refl _) (le_refl _) (by intro j h1 h2; omega)
    (by norm_num [gpuUnit])
  exact ⟨gpuUnit_found, r, hr, (hC.1 1 r hr).2.1⟩

/-! ## Lemmas on kernel `kf` and its launch -/

theorem global_size_eq : global_size = 262144 := by decide

theorem kf_loop_step {α : Type} (A : FArith α) (n stride : ℕ) (hs : 0 < stride) (i : ℕ)
    (s : Bufs α) (h : i < n) :
    kf_loop A n stride hs i s =
      ((kf_loop A n stride hs (i + stride) (setBody (kf_elem A) A.zero i s)).1,
        i :: (kf_loop A n stride hs (i + stride) (setBody (kf_elem A) A.zero i s)).2) := by
  rw [kf_loop, dif_pos h]
  rfl

theorem kf_loop_done {α : Type} (A : FArith α) (n stride : ℕ) (hs : 0 < stride) (i : ℕ)
    (s : Bufs α) (h : ¬ i < n) : kf_loop A n stride hs i s = (s, []) := by
  rw [kf_loop, dif_neg h]

/-- In the launch of `run_gpu` a work-item makes exactly four iterations. -/
theorem kf_launch {α : Type} (A : FArith α) (gid : ℕ) (hg : gid < global_size)
    (s : Bufs α) :
    kf A N global_size (by decide) gid s =
      ((launchIndices gid).foldl (fun s i => setBody (kf_elem A) A.zero i s) s,
        launchIndices gid) := by
  have hG := global_size_eq
  have hN := N_eq
  have h1 : gid < N := by omega
  have h2 : gid + global_size < N := by omega
  have h3 : gid + global_size + global_size < N := by omega
  have h4 : gid + global_size + global_size + global_size < N := by omega
  have h5 : ¬ gid + global_size + global_size + global_size + global_size < N := by omega
  have e2 : gid + 2 * global_size = gid + global_size + global_size := by omega
  have e3 : gid + 3 * global_size = gid + global_size + global_size + global_size := by omega
  rw [kf, kf_loop_step A _ _ _ _ _ h1, kf_loop_step A _ _ _ _ _ h2,
    kf_loop_step A _ _ _ _ _ h3, kf_loop_step A _ _ _ _ _ h4, kf_loop_done A _ _ _ _ _ h5]
  simp only [launchIndices, e2, e3, List.foldl_cons, List.foldl_nil]

theorem mem_launchIndices (gid i : ℕ) (hg : gid < global_size) :
    i ∈ launchIndices gid ↔ i < N ∧ ∃ m, i = gid + m * global_size := by
  have hG := global_size_eq
  have hN := N_eq
  simp only [launchIndices, List.mem_cons, List.mem_singleton, List.not_mem_nil, or_false]
  constructor
  · intro h
    refine ⟨by omega, ?_⟩
    rcases h with h | h | h | h
    · exact ⟨0, by omega⟩
    · exact ⟨1, by omega⟩
    · exact ⟨2, by omega⟩
    · exact ⟨3, by omega⟩
  · rintro ⟨hi, m, hm⟩
    have hm4 : m < 4 := by
      by_contra hcon
      have : 4 * global_size ≤ m * global_size := Nat.mul_le_mul_right _ (by omega)
      omega
    interval_cases m <;> omega

theorem mem_launchIndices_mod (i : ℕ) (hi : i < N) : i ∈ launchIndices (i % global_size) := by
  have hG := global_size_eq
  have hN := N_eq
  simp only [launchIndices, List.mem_cons, List.mem_singleton, List.not_mem_nil, or_false]
  rw [hG]
  omega

theorem launchIndices_unique (gid i : ℕ) (hg : gid < global_size)
    (hi : i ∈ launchIndices gid) : gid = i % global_size := by
  have hG := global_size_eq
  simp only [launchIndices, List.mem_cons, List.mem_singleton, List.not_mem_nil, or_false] at hi
  rw [hG] at hi hg ⊢
  omega

/-- A launch is one element-wise pass over the indices of its work-items. -/
theorem dispatch_eq_fold {α : Type} (A : FArith α) (order : List ℕ)
    (horder : ∀ gid, gid ∈ order → gid < global_size) (s : Bufs α) :
    dispatch A N global_size (by decide) order s =
      (order.flatMap launchIndices).foldl (fun s i => setBody (kf_elem A) A.zero i s) s := by
  induction order generalizing s with
  | nil => rfl
  | cons g rest ih =>
    have hg : g < global_size := horder g (List.mem_cons_self _ _)
    have hrest : ∀ gid, gid ∈ rest → gid < global_size :=
      fun gid h => horder gid (List.mem_cons_of_mem _ h)
    have ih' := ih hrest ((launchIndices g).foldl (fun s i => setBody (kf_elem A) A.zero i s) s)
    rw [dispatch] at ih' ⊢
    rw [List.foldl_cons, kf_launch A g hg s, List.flatMap_cons, List.foldl_append]
    exact ih'

theorem dispatch_c {α : Type} (A : FArith α) (order : List ℕ)
    (horder : order.Perm (List.range global_size)) (s : Bufs α) (hc : s.c.length = N) :
    (dispatch A N global_size (by decide) order s).c =
      (List.range N).map (fun j => kf_elem A (s.a.getD j A.zero) (s.b.getD j A.zero)) := by
  have hlt : ∀ gid, gid ∈ order → gid < global_size := by
    intro gid h
    exact List.mem_range.1 ((horder.mem_iff).1 h)
  rw [dispatch_eq_fold A order hlt s, foldl_setBody_c, hc]
  intro j hj
  rw [hc] at hj
  rw [List.mem_flatMap]
  refine ⟨j % global_size, ?_, mem_launchIndices_mod j hj⟩
  exact (horder.mem_iff).2 (List.mem_range.2 (Nat.mod_lt _ (by decide)))

theorem dispatch_a {α : Type} (A : FArith α) (order : List ℕ)
    (horder : ∀ gid, gid ∈ order → gid < global_size) (s : Bufs α) :
    (dispatch A N global_size (by decide) order s).a = s.a := by
  rw [dispatch_eq_fold A order horder s, foldl_setBody_a]

theorem dispatch_b {α : Type} (A : FArith α) (order : List ℕ)
    (horder : ∀ gid, gid ∈ order → gid < global_size) (s : Bufs α) :
    (dispatch A N global_size (by decide) order s).b = s.b := by
  rw [dispatch_eq_fold A order horder s, foldl_setBody_b]

/-! ## Claims on the grid-stride loop and on the arithmetic chains -/

/-- C8: in the launch of `run_gpu` (global size `256 * 1024`, `n = 2^20`), the
work-item `gid` processes exactly the indices `gid, gid + stride,
gid + 2*stride, ...` below `n`, four of them, and writes `c` at those indices
only; the index sets of distinct work-items are disjoint and every index of
`[0, n)` belongs to exactly one work-item.  The 32-bit `int` loop variable
does not overflow. -/
theorem C8_grid_stride {α : Type} (A : FArith α) :
    global_size = 256 * 1024 ∧ N = 2 ^ 20 ∧
    (∀ gid s, gid < global_size →
      (kf A N global_size (by decide) gid s).2 =
        [gid, gid + global_size, gid + 2 * global_size, gid + 3 * global_size] ∧
      (∀ i, i ∈ (kf A N global_size (by decide) gid s).2 ↔
        i < N ∧ ∃ m, i = gid + m * global_size) ∧
      (kf A N global_size (by decide) gid s).2.length = 4 ∧
      (kf A N global_size (by decide) gid s).2.Nodup ∧
      (∀ i, i ∈ (kf A N global_size (by decide) gid s).2 → i + global_size < 2 ^ 31) ∧
      (kf A N global_size (by decide) gid s).1 =
        (kf A N global_size (by decide) gid s).2.foldl
          (fun s i => setBody (kf_elem A) A.zero i s) s ∧
      (∀ i, i ∉ (kf A N global_size (by decide) gid s).2 →
        (kf A N global_size (by decide) gid s).1.c[i]? = s.c[i]?)) ∧
    (∀ gid gid' s s', gid < global_size → gid' < global_size → gid ≠ gid' →
      List.Disjoint (kf A N global_size (by decide) gid s).2
        (kf A N global_size (by decide) gid' s').2) ∧
    (∀ i s, i < N → ∃! gid, gid < global_size ∧
      i ∈ (kf A N global_size (by decide) gid s).2) := by
  refine ⟨by decide, by decide, ?_, ?_, ?_⟩
  · intro gid s hg
    rw [kf_launch A gid hg s]
    refine ⟨rfl, fun i => mem_launchIndices gid i hg, rfl, ?_, ?_, rfl, ?_⟩
    · have hG := global_size_eq
      simp only [launchIndices, List.nodup_cons, List.mem_cons, List.mem_singleton,
        List.not_mem_nil, or_false, not_false_eq_true, List.nodup_nil, and_true]
      omega
    · intro i hi
      have hG := global_size_eq
      have hN := N_eq
      have := ((mem_launchIndices gid i hg).1 hi).1
      omega
    · intro i hi
      show ((launchIndices gid).foldl (fun s i => setBody (kf_elem A) A.zero i s) s).c[i]? = _
      rw [foldl_setBody_get]
      have hi' : i ∉ launchIndices gid := hi
      simp [hi']
  · intro gid gid' s s' hg hg' hne
    rw [kf_launch A gid hg s, kf_launch A gid' hg' s']
    intro i hi hi'
    have e1 := launchIndices_unique gid i hg hi
    have e2 := launchIndices_unique gid' i hg' hi'
    exact hne (e1.trans e2.symm)
  · intro i s hi
    refine ⟨i % global_size, ⟨Nat.mod_lt _ (by decide), ?_⟩, ?_⟩
    · rw [kf_launch A _ (Nat.mod_lt _ (by decide)) s]
      exact mem_launchIndices_mod i hi
    · rintro gid ⟨hg, hmem⟩
      rw [kf_launch A gid hg s] at hmem
      exact launchIndices_unique gid i hg hmem

/-- C8 at the work-items 5 and 7 and at the index 300000. -/
theorem C8_grid_stride_witness :
    (5 : ℕ) < global_size ∧ (7 : ℕ) < global_size ∧ (5 : ℕ) ≠ 7 ∧ (300000 : ℕ) < N ∧
    (kf exactQ N global_size (by decide) 5 (run_cpu_init exactQ)).2 =
      [5, 5 + global_size, 5 + 2 * global_size, 5 + 3 * global_size] ∧
    List.Disjoint (kf exactQ N global_size (by decide) 5 (run_cpu_init exactQ)).2
      (kf exactQ N global_size (by decide) 7 (run_cpu_init exactQ)).2 ∧
    (∃! gid, gid < global_size ∧
      300000 ∈ (kf exactQ N global_size (by decide) gid (run_cpu_init exactQ)).2) := by
  have h5 : (5 : ℕ) < global_size := by decide
  have h7 : (7 : ℕ) < global_size := by decide
  have hi : (300000 : ℕ) < N := by decide
  have hC := C8_grid_stride exactQ
  exact ⟨h5, h7, by decide, hi, (hC.2.2.1 5 (run_cpu_init exactQ) h5).1,
    hC.2.2.2.1 5 7 _ _ h5 h7 (by decide), hC.2.2.2.2 300000 (run_cpu_init exactQ) hi⟩

theorem iterate_chain (x y : ℚ) (n : ℕ) :
    (fun x => x * y + y)^[n] x = x * y ^ n + ∑ j ∈ Finset.range n, y ^ (j + 1) := by
  induction n with
  | zero => simp
  | succ n ih =>
    rw [Function.iterate_succ_apply', ih, Finset.sum_range_succ', add_mul, Finset.sum_mul]
    have hs : ∀ j : ℕ, y ^ (j + 1) * y = y ^ (j + 1 + 1) := fun j => (pow_succ y (j + 1)).symm
    simp only [hs]
    ring

theorem kf_elem_exact_one : kf_elem exactQ exactQ.one exactQ.one = 17 := by
  simp only [kf_elem, exactQ]
  norm_num

theorem run_cpu_elem_exact_one : run_cpu_elem exactQ exactQ.one exactQ.one = 9 := by
  simp only [run_cpu_elem, exactQ]
  norm_num

/-- C10: over exact rational arithmetic, for all `x` and `y`, the chain of `n`
updates `x := x*y + y` yields `x*y^n + (y + y^2 + ... + y^n)`; the loop body of
`run_cpu` is that chain with `n = 8` and kernel `kf` that chain with `n = 16`,
so the GPU chain is the CPU chain applied twice; for the inputs `x = y = 1` of
the program a CPU pass writes 9 and a GPU launch writes 17 at every index. -/
theorem C10_exact_chains :
    (∀ (x y : ℚ) (n : ℕ),
      (fun x => x * y + y)^[n] x = x * y ^ n + ∑ j ∈ Finset.range n, y ^ (j + 1)) ∧
    (∀ x y : ℚ, run_cpu_elem exactQ x y = (fun x => x * y + y)^[8] x ∧
      run_cpu_elem exactQ x y = x * y ^ 8 + ∑ j ∈ Finset.range 8, y ^ (j + 1)) ∧
    (∀ x y : ℚ, kf_elem exactQ x y = (fun x => x * y + y)^[16] x ∧
      kf_elem exactQ x y = x * y ^ 16 + ∑ j ∈ Finset.range 16, y ^ (j + 1)) ∧
    (∀ x y : ℚ, kf_elem exactQ x y = run_cpu_elem exactQ (run_cpu_elem exactQ x y) y) ∧
    (∀ order : List ℕ, order.Perm (List.range N) → ∀ i, i < N →
      (run_cpu_pass exactQ order (run_cpu_init exactQ)).c[i]? = some 9) ∧
    (∀ (w : GpuWorld ℚ) (order : List ℕ), w.mem0.c.length = N →
      order.Perm (List.range global_size) → ∀ i, i < N →
      (dispatch exactQ N global_size (by decide) order (run_gpu_init exactQ w)).c[i]? =
        some 17) := by
  have hcpu : ∀ x y : ℚ, run_cpu_elem exactQ x y = (fun x => x * y + y)^[8] x :=
    fun x y => rfl
  have hgpu : ∀ x y : ℚ, kf_elem exactQ x y = (fun x => x * y + y)^[16] x :=
    fun x y => rfl
  refine ⟨iterate_chain, ?_, ?_, fun x y => rfl, ?_, ?_⟩
  · intro x y
    exact ⟨hcpu x y, by rw [hcpu, iterate_chain]⟩
  · intro x y
    exact ⟨hgpu x y, by rw [hgpu, iterate_chain]⟩
  · intro order horder i hi
    rw [run_cpu_pass_init_get exactQ order horder i hi, run_cpu_elem_exact_one]
  · intro w order hlen horder i hi
    rw [dispatch_c exactQ order horder (run_gpu_init exactQ w) hlen]
    simp only [run_gpu_init, List.getElem?_map, List.getElem?_range hi, Option.map_some']
    have hget : (List.replicate N exactQ.one).getD i exactQ.zero = exactQ.one := by
      simp [List.getD_eq_getElem?_getD, List.getElem?_replicate, hi]
    rw [hget, kf_elem_exact_one]

/-- C10 at the index 12345 of the program buffers. -/
theorem C10_exact_chains_witness :
    (List.range N).Perm (List.range N) ∧ gpuUnit.mem0.c.length = N ∧
    (List.range global_size).Perm (List.range global_size) ∧ (12345 : ℕ) < N ∧
    (run_cpu_pass exactQ (List.range N) (run_cpu_init exactQ)).c[12345]? = some 9 ∧
    (dispatch exactQ N global_size (by decide) (List.range global_size)
      (run_gpu_init exactQ gpuUnit)).c[12345]? = some 17 := by
  have hi : (12345 : ℕ) < N := by decide
  have hlen : gpuUnit.mem0.c.length = N := by simp [gpuUnit]
  exact ⟨List.Perm.refl _, hlen, List.Perm.refl _, hi,
    C10_exact_chains.2.2.2.2.1 (List.range N) (List.Perm.refl _) 12345 hi,
    C10_exact_chains.2.2.2.2.2 gpuUnit (List.range global_size) hlen (List.Perm.refl _)
      12345 hi⟩

end FlopsMax
